import Mathlib

/-!
Verification of karimsa/secrets: the `secrets encrypt` command and the symmetric cipher.

A shallow embedding of `cmd/secrets/secrets.go` and `cmd/secrets/encrypt.go`, of the test
`TestPadding` of `internal/encrypt/encrypt_test.go`, and of the padding and the symmetric
cipher of `internal/encrypt`, whose own source file is not among the sources and which
are modelled from the spec and from that test.

Conventions of the embedding:

* a Go `string` is a `List Char` (`GoString`).  Every string operation of the embedded
  code compares against ASCII bytes (`'.'`, `'#'`, `'\n'`, `'%'`) or trims Unicode white
  space, so on valid UTF-8 text the byte view of Go and the code-point view used here
  coincide;
* a Go `[]byte` is a `List Byte` with `Byte = Fin 256`; the plaintext of the cipher is
  taken as its bytes;
* a Go `error` is its message (`Error`);
* writes to the terminal and calls into the collaborators are recorded, in order, as a
  list of `Event`s; the collaborators themselves (file system, terminal, package
  `secrets`, the `crypto` primitives) are parameters;
* loops run on fuel; for each of them a theorem shows that the fuel given is enough.

The file has three parts: the definitions, lemmas about them, and the theorems that
settle the claims `C1` to `C10`.
-/

namespace Secrets

/-! ## Bytes, strings and `encoding/hex` -/

/-- A Go `byte`. -/
abbrev Byte := Fin 256

/-- A Go `string`. -/
abbrev GoString := List Char

/-- The Go conversion `byte(n)` of a non-negative `int`: the low eight bits. -/
def byte (n : Nat) : Byte := ⟨n % 256, Nat.mod_lt n (by decide)⟩

/-- The digit table of `encoding/hex`. -/
def hextable : List Char := "0123456789abcdef".toList

/-- The character `hextable[n]`. -/
def hexDigit (n : Nat) : Char := hextable.getD n '0'

/-- Go `hex.EncodeToString`: two lower-case digits per byte, high nibble first. -/
def EncodeToString : List Byte → GoString
  | [] => []
  | b :: rest => hexDigit (b.val / 16) :: hexDigit (b.val % 16) :: EncodeToString rest

/-- Go `fromHexChar` of `encoding/hex`: the value of one hexadecimal digit, either case. -/
def fromHexChar (c : Char) : Option Nat :=
  if '0'.toNat ≤ c.toNat ∧ c.toNat ≤ '9'.toNat then some (c.toNat - '0'.toNat)
  else if 'a'.toNat ≤ c.toNat ∧ c.toNat ≤ 'f'.toNat then some (c.toNat - 'a'.toNat + 10)
  else if 'A'.toNat ≤ c.toNat ∧ c.toNat ≤ 'F'.toNat then some (c.toNat - 'A'.toNat + 10)
  else none

/-- Go `hex.DecodeString`; `none` stands for either of its errors (odd length, a
character that is no hexadecimal digit). -/
def DecodeString : GoString → Option (List Byte)
  | [] => some []
  | [_] => none
  | a :: b :: rest =>
    match fromHexChar a, fromHexChar b, DecodeString rest with
    | some x, some y, some r => some (byte (x * 16 + y) :: r)
    | _, _, _ => none

/-- Go `strings.Repeat`. -/
def Repeat (s : GoString) : Nat → GoString
  | 0 => []
  | n + 1 => s ++ Repeat s n

/-- Go `strconv.FormatInt(n, 16)` for a non-negative `n`. -/
def FormatInt16 (n : Nat) : GoString := Nat.toDigits 16 n

/-! ## Padding (`internal/encrypt`) -/

/-- Modelled from the spec: `pkcs7Pad` lives in `internal/encrypt/encrypt.go`, which is
not among the sources; only its test `TestPadding` is.  The number of bytes appended,
`blockSize - (n mod blockSize)`, is the spec's ("pad length is always in
`[1, blockSize]` and equals `blockSize - (n mod blockSize)`").  The values of the
appended bytes are those `TestPadding` fixes for the one buffer it checks
(`01 01 01`, then `padSize = 12` zero bytes, then the byte `0c`): zero fill, closed by
a byte that holds the number of fill bytes.  A block size of `0` makes the Go
remainder panic, which is `none` here. -/
def pkcs7Pad (data : List Byte) (blockSize : Nat) : Option (List Byte) :=
  if blockSize = 0 then none
  else
    let padSize := blockSize - data.length % blockSize - 1
    some (data ++ List.replicate padSize 0 ++ [byte padSize])

/-- Modelled from the spec: `pkcs7Unpad` lives in `internal/encrypt/encrypt.go`, which is
not among the sources.  As in the spec it reads "the trailing byte as the pad length"
and strips the padding, the inverse of `pkcs7Pad` above: the trailing byte counts the
fill bytes in front of it.  `TestPadding` shows that it returns the buffer alone, with no
error value, so an empty buffer and a pad length that exceeds the buffer (an index out
of range in Go) are `none` here. -/
def pkcs7Unpad (data : List Byte) : Option (List Byte) :=
  match data.getLast? with
  | none => none
  | some last =>
    if last.val + 1 ≤ data.length then some (data.take (data.length - (last.val + 1)))
    else none

/-- The padding scheme of the spec's words taken alone (PKCS#7: every appended byte holds
the number of appended bytes).  It is kept only to be compared with `TestPadding`. -/
def pkcs7PadPKCS7 (data : List Byte) (blockSize : Nat) : Option (List Byte) :=
  if blockSize = 0 then none
  else
    let k := blockSize - data.length % blockSize
    some (data ++ List.replicate k (byte k))

/-- The buffer `TestPadding` expects from `pkcs7Pad([]byte{1, 1, 1}, 16)`, as the hex
string the test builds (`expected`, lines 16 to 22 of `encrypt_test.go`). -/
def TestPadding.expected : GoString :=
  let padSize := 12
  let padHex := FormatInt16 padSize
  let padHex := if padHex.length = 1 then "0".toList ++ padHex else padHex
  "010101".toList ++ Repeat "00".toList padSize ++ padHex

/-- Go `TestPadding` of `encrypt_test.go`, with the two functions under test as
parameters: `true` when the test passes (no `t.Error`, no panic). -/
def TestPadding (pad : List Byte → Nat → Option (List Byte))
    (unpad : List Byte → Option (List Byte)) : Bool :=
  let data : List Byte := [1, 1, 1]
  match pad data 16 with
  | none => false
  | some paddedBuff =>
    let padded := EncodeToString paddedBuff
    if padded ≠ TestPadding.expected then false
    else
      match unpad paddedBuff with
      | none => false
      | some unpadded => decide (unpadded = data)

/-! ## Effects: results, events and the collaborators of the command -/

/-- A Go `error`, kept as its message. -/
abbrev Error := GoString

/-- Modelled from the spec: the type `logger.LogLevel` of `internal/logger`, which is not
among the sources (the spec has "log-level configuration" as a collaborator).  Its values
are the three levels `getLogLevel` names. -/
inductive LogLevel
  | LevelNone
  | LevelInfo
  | LevelDebug
  deriving DecidableEq, Repr

/-- The UTF-8 encoding of one code point. -/
def utf8 (c : Char) : List Byte :=
  let n := c.toNat
  if n < 0x80 then [byte n]
  else if n < 0x800 then [byte (0xC0 + n / 0x40), byte (0x80 + n % 0x40)]
  else if n < 0x10000 then
    [byte (0xE0 + n / 0x1000), byte (0x80 + n / 0x40 % 0x40), byte (0x80 + n % 0x40)]
  else
    [byte (0xF0 + n / 0x40000), byte (0x80 + n / 0x1000 % 0x40), byte (0x80 + n / 0x40 % 0x40),
      byte (0x80 + n % 0x40)]

/-- The Go conversion `[]byte(s)` of a string: its bytes. -/
def bytes : GoString → List Byte
  | [] => []
  | c :: cs => utf8 c ++ bytes cs

/-- Modelled from the spec: the cipher value of `internal/encrypt`, whose source file is
not among the sources.  The spec has the core construct "one Cipher Engine instance" from
"a passphrase as a byte sequence"; the value is kept as that passphrase. -/
structure SimpleCipher where
  passphrase : List Byte
  deriving DecidableEq, Repr

/-- Modelled from the spec: `encrypt.NewSymmetricCipher` of `internal/encrypt`, whose
source file is not among the sources: the cipher built from a passphrase. -/
def NewSymmetricCipher (pass : List Byte) : SimpleCipher := ⟨pass⟩

/-- Modelled from the spec: the type `secrets.NewEnvOptions` of package `secrets`, which
is not among the sources; the fields are those the command sets, with `Reader` the content
of the opened input file. -/
structure NewEnvOptions where
  Format : GoString
  Reader : GoString
  Cipher : SimpleCipher
  LogLevel : LogLevel
  SecurePaths : List GoString
  deriving DecidableEq, Repr

/-- What the command does that can be observed from outside, in the order it happens. -/
inductive Event
  /-- A call `l.Debugf(msg)` on the logger built by `logger.New(level)`. -/
  | debugf (level : LogLevel) (msg : GoString)
  /-- A line written by `log.Printf`: Go's standard logger, which writes to standard
  error (the date and time in front of the message are left out). -/
  | logPrintf (msg : GoString)
  /-- Bytes written to standard output: by `fmt.Printf`, or by `gopass.GetPasswdMasked`
  as the echo of what is typed. -/
  | stdout (s : GoString)
  /-- Bytes written to standard error by `fmt.Fprintf(os.Stderr, ...)`. -/
  | stderr (s : GoString)
  /-- A call `gopass.GetPasswdMasked()`, which reads the passphrase from the terminal;
  what it echoes is the `stdout` event that follows. -/
  | getPasswdMasked
  /-- A call `secrets.New(opts)`. -/
  | secretsNew (opts : NewEnvOptions)
  /-- A call `envFile.Export(format)`. -/
  | export (format : GoString)
  /-- A call `envFile.ExportFile(format, path, mode)`. -/
  | exportFile (format path : GoString) (mode : Nat)
  deriving DecidableEq, Repr

/-- How a Go call can end other than by returning a value. -/
inductive Failure
  /-- A non-nil `error` was returned. -/
  | error (e : Error)
  /-- A run-time panic (index out of range). -/
  | panic
  /-- A loop was still running when the fuel of the embedding ran out. -/
  | diverge
  deriving DecidableEq, Repr

deriving instance DecidableEq for Except

/-- A computation with effects: how it ended and the events it produced. -/
structure Eff (α : Type) where
  result : Except Failure α
  trace : List Event

/-- Sequencing: the second computation runs only when the first returned a value. -/
def Eff.bind {α β : Type} (x : Eff α) (f : α → Eff β) : Eff β :=
  match x.result with
  | .ok a => ⟨(f a).result, x.trace ++ (f a).trace⟩
  | .error e => ⟨.error e, x.trace⟩

instance : Monad Eff where
  pure a := ⟨.ok a, []⟩
  bind := Eff.bind

/-- Produce one event. -/
def emit (e : Event) : Eff Unit := ⟨.ok (), [e]⟩

/-- Go `return nil, err` (or `return err`). -/
def fail {α : Type} (e : Error) : Eff α := ⟨.error (.error e), []⟩

/-- A call of the shape `v, err := f(...); if err != nil { return err }`. -/
def try? {α : Type} (r : Except Error α) : Eff α :=
  match r with
  | .ok a => ⟨.ok a, []⟩
  | .error e => fail e

/-- Go `os.O_WRONLY` (the values of the `os.O_*` flags are those of Linux). -/
def O_WRONLY : Nat := 0x1
/-- Go `os.O_CREATE` on Linux. -/
def O_CREATE : Nat := 0x40
/-- Go `os.O_EXCL` on Linux. -/
def O_EXCL : Nat := 0x80
/-- Go `os.O_TRUNC` on Linux. -/
def O_TRUNC : Nat := 0x200

/-- The flags of the command as `ctx.String` / `ctx.StringSlice` return them: defaults
and environment variables are already resolved by the `cli` library.  `keyFlag` is
`none` when `ctx.StringSlice("key")` is `nil` (no `--key` given). -/
structure Context where
  inFlag : GoString
  outFlag : GoString
  formatFlag : GoString
  strategyFlag : GoString
  passphraseFlag : GoString
  keyFlag : Option (List GoString)
  keyFileFlag : GoString
  flagLogLevel : GoString

/-- The methods of the value returned by `secrets.New` that the command calls; package
`secrets` is not among the sources, so they are parameters. -/
structure EnvFile where
  /-- Go `envFile.Export(format)`: the serialized buffer or an error. -/
  Export : GoString → Except Error GoString
  /-- Go `envFile.ExportFile(format, path, mode)`: the error it returns, if any. -/
  ExportFile : GoString → GoString → Nat → Option Error

/-- The collaborators of the command: the file system, the terminal and package
`secrets`. -/
structure World where
  /-- Go `os.Open(path)` and `os.OpenFile(path, os.O_RDONLY, 0)`: the content of a
  readable file, or the error of the call.  Reading an opened file fails only with
  `io.EOF`, at its end. -/
  Open : GoString → Except Error GoString
  /-- Go `gopass.GetPasswdMasked()`: the passphrase typed, or the error of the call. -/
  GetPasswdMasked : Except Error (List Byte)
  /-- What `gopass.GetPasswdMasked()` writes to `os.Stdout` while it reads: one `*` for
  every byte typed, `\b \b` for every byte erased, and a line end when the terminal is
  restored.  It is written whether or not the call returns an error. -/
  GetPasswdMaskedEcho : GoString
  /-- Go `secrets.New`. -/
  New : NewEnvOptions → Except Error EnvFile

/-! ## `fmt.Printf` with a format string and no operands -/

/-- Go `parsenum` of `fmt/print.go` on the text `s[start:end]`: the number read, whether
one was read, and the text left.  A number above `tooLarge` jumps to `end`. -/
def parsenum.go : GoString → Nat → Bool → Nat × Bool × GoString
  | [], num, isnum => (num, isnum, [])
  | c :: cs, num, isnum =>
    if '0'.toNat ≤ c.toNat ∧ c.toNat ≤ '9'.toNat then
      if num > 1000000 then (0, false, [])
      else parsenum.go cs (num * 10 + (c.toNat - '0'.toNat)) true
    else (num, isnum, c :: cs)

/-- Go `parsenum` of `fmt/print.go`. -/
def parsenum (s : GoString) : Nat × Bool × GoString := parsenum.go s 0 false

/-- Go `parseArgNumber` of `fmt/print.go` on a text that starts with `'['`: the width of
the bracketed index and whether it is well formed. -/
def parseArgNumber (format : GoString) : Nat × Bool :=
  if format.length < 3 then (1, false)
  else
    let inner := format.drop 1
    let j := inner.indexOf ']'
    if j = inner.length then (1, false)
    else
      match parsenum (inner.take j) with
      | (_, true, []) => (j + 2, true)
      | _ => (j + 2, false)

/-- Go `(*pp).argNumber` of `fmt/print.go` when there are no operands: the text left,
`found`, and whether `goodArgNum` survives (an index never names an operand). -/
def argNumber (s : GoString) : GoString × Bool × Bool :=
  match s with
  | '[' :: _ =>
    let (wid, ok) := parseArgNumber s
    (s.drop wid, ok, false)
  | _ => (s, false, true)

/-- The flags of one verb in Go `(*pp).doPrintf`: any run of `#`, `0`, `+`, `-` and
space is skipped (with no operands the fast path for simple verbs is never taken). -/
def doPrintf.flags (s : GoString) : GoString :=
  s.dropWhile fun c => c = '#' ∨ c = '0' ∨ c = '+' ∨ c = '-' ∨ c = ' '

/-- The width of one verb in Go `(*pp).doPrintf` when there are no operands: what is
written, the text left, `afterIndex` and `goodArgNum`.  A `'*'` finds no operand and
writes `%!(BADWIDTH)`. -/
def doPrintf.width (s : GoString) (afterIndex good : Bool) :
    GoString × GoString × Bool × Bool :=
  match s with
  | '*' :: s1 => ("%!(BADWIDTH)".toList, s1, false, good)
  | _ =>
    let (_, widPresent, s1) := parsenum s
    ([], s1, afterIndex, good && !(afterIndex && widPresent))

/-- The precision of one verb in Go `(*pp).doPrintf` when there are no operands: what is
written, the text left, `afterIndex` and `goodArgNum`.  A `'.'` starts a precision only
when a character follows it (`i+1 < end`); a `'.'` that ends the format is left to be the
verb.  A `'*'` finds no operand and writes `%!(BADPREC)`. -/
def doPrintf.precision (s : GoString) (afterIndex good : Bool) :
    GoString × GoString × Bool × Bool :=
  match s with
  | '.' :: c :: cs =>
    let s1 := c :: cs
    let good := good && !afterIndex
    let (s2, afterIndex, good2) := argNumber s1
    let good := good && good2
    match s2 with
    | '*' :: s3 => ("%!(BADPREC)".toList, s3, false, good)
    | _ =>
      let (_, _, s3) := parsenum s2
      ([], s3, afterIndex, good)
  | _ => ([], s, afterIndex, good)

/-- One verb of Go `(*pp).doPrintf` when there are no operands: the text that follows a
`'%'` is consumed up to the verb; the result is what is written and the format left.
`"%%"` writes one `'%'`; any other verb finds no operand and writes `%!v(MISSING)`
(`%!v(BADINDEX)` after a bad index); a format that ends first writes `%!(NOVERB)`. -/
def doPrintf.verb (s : GoString) : GoString × GoString :=
  let s := doPrintf.flags s
  let (s, afterIndex, good) := argNumber s
  let (out1, s, afterIndex, good) := doPrintf.width s afterIndex good
  let (out2, s, afterIndex, good) := doPrintf.precision s afterIndex good
  let (s, good) :=
    if afterIndex then (s, good)
    else
      let (s1, _, good3) := argNumber s
      (s1, good && good3)
  match s with
  | [] => (out1 ++ out2 ++ "%!(NOVERB)".toList, [])
  | verb :: rest =>
    if verb = '%' then (out1 ++ out2 ++ ['%'], rest)
    else if !good then (out1 ++ out2 ++ "%!".toList ++ [verb] ++ "(BADINDEX)".toList, rest)
    else (out1 ++ out2 ++ "%!".toList ++ [verb] ++ "(MISSING)".toList, rest)

/-- The loop of Go `(*pp).doPrintf` when there are no operands: text up to the next `'%'`
is copied, then one verb is processed.  Every round consumes at least the `'%'`, so
`format.length + 1` rounds of fuel are never used up. -/
def doPrintf : Nat → GoString → GoString
  | 0, _ => []
  | fuel + 1, format =>
    let text := format.takeWhile fun c => c ≠ '%'
    match format.dropWhile fun c => c ≠ '%' with
    | [] => text
    | _ :: s =>
      let (out, rest) := doPrintf.verb s
      text ++ out ++ doPrintf fuel rest

/-- What `fmt.Printf(format)` and `fmt.Fprintf(w, format)` write when called with a
format and no operands. -/
def Sprintf (format : GoString) : GoString := doPrintf (format.length + 1) format

/-- Go `fmt.Printf(format)`. -/
def Printf (format : GoString) : Eff Unit := emit (.stdout (Sprintf format))

/-- Go `fmt.Fprintf(os.Stderr, format)`. -/
def FprintfStderr (format : GoString) : Eff Unit := emit (.stderr (Sprintf format))

/-- Go `fmt` verb `%+v` on a `[]string`. -/
def formatStrings (xs : List GoString) : GoString :=
  '[' :: (List.intercalate [' '] xs) ++ [']']

/-! ## `strings` and `bufio` -/

/-- Go `unicode.IsSpace`. -/
def IsSpace (r : Char) : Bool :=
  let n := r.toNat
  n = 0x09 ∨ n = 0x0A ∨ n = 0x0B ∨ n = 0x0C ∨ n = 0x0D ∨ n = 0x20 ∨ n = 0x85 ∨ n = 0xA0 ∨
    n = 0x1680 ∨ (0x2000 ≤ n ∧ n ≤ 0x200A) ∨ n = 0x2028 ∨ n = 0x2029 ∨ n = 0x202F ∨
    n = 0x205F ∨ n = 0x3000

/-- Go `strings.TrimSpace`: all leading and trailing white space removed. -/
def TrimSpace (s : GoString) : GoString := (s.rdropWhile IsSpace).dropWhile IsSpace

/-- Go `strings.LastIndexByte`: the index of the last `c` in `s`, or `-1`. -/
def LastIndexByte : GoString → Char → Int
  | [], _ => -1
  | x :: xs, c =>
    let r := LastIndexByte xs c
    if 0 ≤ r then r + 1 else if x = c then 0 else -1

/-- Go `(*bufio.Reader).ReadString(delim)` on a reader with `reader` left to read: the
text up to and including the first `delim`, or else all that is left together with
`io.EOF` (the flag); and what is left to read afterwards. -/
def ReadString (reader : GoString) (delim : Char) : GoString × Bool × GoString :=
  let line := reader.takeWhile fun c => c ≠ delim
  match reader.dropWhile fun c => c ≠ delim with
  | [] => (line, true, [])
  | d :: rest => (line ++ [d], false, rest)

/-! ## `cmd/secrets/secrets.go` -/

/-- Go `getLogLevel`. -/
def getLogLevel (ctx : Context) : Except Error LogLevel :=
  let level := ctx.flagLogLevel
  if level = [] then .ok .LevelNone
  else if level = "none".toList then .ok .LevelNone
  else if level = "info".toList then .ok .LevelInfo
  else if level = "debug".toList then .ok .LevelDebug
  else .error ("Unrecognized log level: ".toList ++ level)

/-- The `for` loop of Go `getInputPaths` (lines 89 to 100), with `reader` left to read
of the key file and `keys` collected so far. -/
def getInputPaths.loop (l : LogLevel) : Nat → GoString → List GoString → Eff (List GoString)
  | 0, _, _ => ⟨.error .diverge, []⟩
  | fuel + 1, reader, keys =>
    let (line, eof, reader) := ReadString reader '\n'
    let line := TrimSpace line
    if line ≠ [] ∧ line.head? ≠ some '#' then do
      emit (.debugf l ("Read key from file: ".toList ++ line))
      getInputPaths.loop l fuel reader (keys ++ [line])
    else if eof then
      pure keys
    else
      -- `err != nil` does not hold here: reading the file fails only with `io.EOF`
      getInputPaths.loop l fuel reader keys

/-- Go `getInputPaths`.  The loop gets `len + 2` rounds of fuel for a key file of `len`
characters. -/
def getInputPaths (w : World) (ctx : Context) : Eff (List GoString) := do
  let keys := ctx.keyFlag
  let keyFile := ctx.keyFileFlag
  let level ← try? (getLogLevel ctx)
  let keys ←
    (match keys with
    | some keys => pure keys
    | none =>
      if keyFile = [] then
        fail "You must specifiy either --key or --key-file".toList
      else do
        let fd ← try? (w.Open keyFile)
        getInputPaths.loop level (fd.length + 2) fd [])
  emit (.debugf level ("Loaded keys: ".toList ++ formatStrings keys))
  pure keys

/-- Go `getFormatFromPath`.  `path[0]` panics on the empty path.  The assignment
`format = "dotenv"` of line 111 is followed by the `if`/`else` of lines 115 to 119, both
branches of which assign `format` again. -/
def getFormatFromPath (path : GoString) : Eff GoString :=
  match path with
  | [] => ⟨.error .panic, []⟩
  | c :: _ => do
    let format : GoString := []
    let _format := if c = '.' then "dotenv".toList else format
    let ext := path.drop (LastIndexByte path '.' + 1).toNat
    let format := if ext = "yml".toList then "yaml".toList else ext
    emit (.logPrintf ("Using format: ".toList ++ format))
    pure format

/-- Go `getCipher`. -/
def getCipher (w : World) (ctx : Context) : Eff SimpleCipher := do
  let strategy := ctx.strategyFlag
  if strategy = "symmetric".toList then
    let pass := ctx.passphraseFlag
    if pass.length ≠ 0 then
      pure (NewSymmetricCipher (bytes pass))
    else do
      FprintfStderr "Passphrase: ".toList
      emit .getPasswdMasked
      emit (.stdout w.GetPasswdMaskedEcho)
      let pass ← try? w.GetPasswdMasked
      pure (NewSymmetricCipher pass)
  else
    fail ("Unsupported strategy: ".toList ++ strategy)

/-! ## `cmd/secrets/encrypt.go` -/

/-- Go `envFile.ExportFile(format, path, mode)` as a step of the command: the call is
recorded and its error, if any, is the result. -/
def EnvFile.callExportFile (envFile : EnvFile) (format path : GoString) (mode : Nat) :
    Eff Unit := do
  emit (.exportFile format path mode)
  match envFile.ExportFile format path mode with
  | some e => fail e
  | none => pure ()

/-- Go `envFile.Export(format)` as a step of the command: the call is recorded. -/
def EnvFile.callExport (envFile : EnvFile) (format : GoString) : Eff GoString := do
  emit (.export format)
  try? (envFile.Export format)

/-- Go `secrets.New(opts)` as a step of the command: the call is recorded. -/
def World.callNew (w : World) (opts : NewEnvOptions) : Eff EnvFile := do
  emit (.secretsNew opts)
  try? (w.New opts)

/-- Lines 34 to 36 of `encrypt.go`: the format the command works with, the `--format`
flag or else `getFormatFromPath(inPath)`. -/
def Action.format (ctx : Context) : Eff GoString :=
  let format := ctx.formatFlag
  let inPath := ctx.inFlag
  if format = [] then getFormatFromPath inPath else pure format

/-- Lines 26 to 67 of `encrypt.go`: every step of the command before it writes.  The
result is what the writing needs: `envFile`, `format` and the buffer of `Export`. -/
def Action.prepare (w : World) (ctx : Context) : Eff (EnvFile × GoString × GoString) := do
  let inPath := ctx.inFlag
  let securePaths ← getInputPaths w ctx
  let format ← Action.format ctx
  let inFile ← try? (w.Open inPath)
  let cipher ← getCipher w ctx
  let logLevel ← try? (getLogLevel ctx)
  let envFile ← w.callNew
    { Format := format, Reader := inFile, Cipher := cipher, LogLevel := logLevel,
      SecurePaths := securePaths }
  let buff ← envFile.callExport format
  pure (envFile, format, buff)

/-- Lines 69 to 84 of `encrypt.go`: the buffer is printed for the two pseudo-paths,
with the buffer itself as the format string of `fmt.Printf` / `fmt.Fprintf`; any other
path goes to `ExportFile`. -/
def Action.output (ctx : Context) (envFile : EnvFile) (format buff : GoString) : Eff Unit :=
  let inPath := ctx.inFlag
  let outPath := ctx.outFlag
  if outPath = "/dev/stdout".toList then
    Printf buff
  else if outPath = "/dev/stderr".toList then
    FprintfStderr buff
  else
    -- For in-place edits, overwrite the file
    let outFileMode := if outPath = inPath then O_WRONLY ||| O_TRUNC else O_EXCL
    envFile.callExportFile format outPath outFileMode

/-- Go `cmdEncrypt.Action`: the steps of `Action.prepare`, then `Action.output`. -/
def Action (w : World) (ctx : Context) : Eff Unit := do
  let (envFile, format, buff) ← Action.prepare w ctx
  Action.output ctx envFile format buff

/-- An event that is a call of `ExportFile`. -/
def Event.isExportFile : Event → Bool
  | .exportFile _ _ _ => true
  | _ => false

/-- A step of the command before output fails with the error `e`: loading the secure
paths, opening the input, building the cipher, reading the log level, `secrets.New` or
`Export`, every step in front of it having succeeded. -/
def Action.failsBeforeOutput (w : World) (ctx : Context) (e : Error) : Prop :=
  (getInputPaths w ctx).result = .error (.error e) ∨
  ∃ securePaths format,
    (getInputPaths w ctx).result = .ok securePaths ∧ (Action.format ctx).result = .ok format ∧
    (w.Open ctx.inFlag = .error e ∨
     ∃ inFile, w.Open ctx.inFlag = .ok inFile ∧
      ((getCipher w ctx).result = .error (.error e) ∨
       ∃ cipher, (getCipher w ctx).result = .ok cipher ∧
        (getLogLevel ctx = .error e ∨
         ∃ logLevel, getLogLevel ctx = .ok logLevel ∧
          (w.New { Format := format, Reader := inFile, Cipher := cipher,
                   LogLevel := logLevel, SecurePaths := securePaths } = .error e ∨
           ∃ envFile,
            w.New { Format := format, Reader := inFile, Cipher := cipher,
                    LogLevel := logLevel, SecurePaths := securePaths } = .ok envFile ∧
            envFile.Export format = .error e))))

/-! ## The symmetric cipher (`internal/encrypt`) -/

/-- The primitives the symmetric cipher is assembled from.  In the repository they come
from Go's `crypto` packages (a block cipher in a chained mode, a keyed hash, a key
expansion); here they are parameters. -/
structure Primitives where
  /-- The block size of the cipher, which is also the length of the IV. -/
  blockSize : Nat
  /-- The length of a signature. -/
  signatureSize : Nat
  /-- The expansion of a passphrase into an encryption key and a signing key. -/
  deriveKeys : List Byte → List Byte × List Byte
  /-- The block-cipher mode: `encryptBlocks key iv data` encrypts whole blocks. -/
  encryptBlocks : List Byte → List Byte → List Byte → List Byte
  /-- The block-cipher mode: `decryptBlocks key iv data` decrypts whole blocks. -/
  decryptBlocks : List Byte → List Byte → List Byte → List Byte
  /-- The keyed hash `mac key data`. -/
  mac : List Byte → List Byte → List Byte

/-- What the cipher relies on the primitives for: a block size that fits the count byte of
the padding, decryption that undoes encryption on whole blocks under the same key and
IV, and signatures of one fixed length. -/
structure Primitives.Valid (prims : Primitives) : Prop where
  blockSize_pos : 1 ≤ prims.blockSize
  blockSize_le : prims.blockSize ≤ 256
  decrypt_encrypt : ∀ key iv data, iv.length = prims.blockSize →
    prims.blockSize ∣ data.length →
    prims.decryptBlocks key iv (prims.encryptBlocks key iv data) = data
  mac_length : ∀ key data, (prims.mac key data).length = prims.signatureSize

/-- Modelled from the spec: `sign` lives in `internal/encrypt/encrypt.go`, which is not
among the sources (`TestSignVerify` calls it as `sign(key, data)`).  It is the "keyed
signature" of the spec. -/
def sign (prims : Primitives) (key data : List Byte) : List Byte := prims.mac key data

/-- Modelled from the spec: `verify` lives in `internal/encrypt/encrypt.go`, which is not
among the sources (`TestSignVerify` calls it as `verify(key, data, signature)`).  The
signature is computed again and compared. -/
def verify (prims : Primitives) (key data signature : List Byte) : Bool :=
  decide (sign prims key data = signature)

/-- The one error of `Decrypt`: the spec has every failure of it reported as a
"decryption failed" outcome. -/
def errDecryptionFailed : Error := "decryption failed".toList

/-- Modelled from the spec: `Encrypt` of the symmetric cipher lives in
`internal/encrypt/encrypt.go`, which is not among the sources.  Following section 4.1 of
the spec: the keys are derived from the passphrase, the plaintext is padded to the block
size, encrypted under the fresh IV `iv` (the random draw is the argument `iv`), signed
over `IV ‖ ciphertext` with the signing key, and the envelope
`IV ‖ ciphertext ‖ signature` is hex-encoded. -/
def SimpleCipher.Encrypt (prims : Primitives) (c : SimpleCipher) (iv plaintext : List Byte) :
    Except Failure GoString :=
  let (encKey, macKey) := prims.deriveKeys c.passphrase
  match pkcs7Pad plaintext prims.blockSize with
  | none => .error .panic
  | some padded =>
    let ciphertext := prims.encryptBlocks encKey iv padded
    let signature := sign prims macKey (iv ++ ciphertext)
    .ok (EncodeToString (iv ++ ciphertext ++ signature))

/-- Modelled from the spec: `Decrypt` of the symmetric cipher lives in
`internal/encrypt/encrypt.go`, which is not among the sources.  Following section 4.1 of
the spec: the envelope is hex-decoded and split into IV (one block), ciphertext and
signature (the last `signatureSize` bytes); the signature over `IV ‖ ciphertext` is
verified before anything is decrypted; then the ciphertext is decrypted and the padding
stripped.  Every failure is the same "decryption failed" error. -/
def SimpleCipher.Decrypt (prims : Primitives) (c : SimpleCipher) (envelope : GoString) :
    Except Failure (List Byte) :=
  let (encKey, macKey) := prims.deriveKeys c.passphrase
  match DecodeString envelope with
  | none => .error (.error errDecryptionFailed)
  | some raw =>
    if raw.length < prims.blockSize + prims.signatureSize then
      .error (.error errDecryptionFailed)
    else
      let iv := raw.take prims.blockSize
      let ciphertext :=
        (raw.drop prims.blockSize).take (raw.length - prims.blockSize - prims.signatureSize)
      let signature := raw.drop (raw.length - prims.signatureSize)
      if !verify prims macKey (iv ++ ciphertext) signature then
        .error (.error errDecryptionFailed)
      else
        match pkcs7Unpad (prims.decryptBlocks encKey iv ciphertext) with
        | none => .error (.error errDecryptionFailed)
        | some plaintext => .ok plaintext

/-- Toy primitives for the examples: blocks of 16 bytes, "encryption" that adds the
first key byte and the first IV byte to every byte, a 2-byte "signature" out of the
lengths and first bytes of key and data. -/
def examplePrimitives : Primitives where
  blockSize := 16
  signatureSize := 2
  deriveKeys := fun pass => (pass, pass.reverse)
  encryptBlocks := fun key iv data => data.map fun b => b + (key.headD 0 + iv.headD 0)
  decryptBlocks := fun key iv data => data.map fun b => b - (key.headD 0 + iv.headD 0)
  mac := fun key data => [byte (key.length + data.length), key.headD 0 + data.headD 0]

/-! ## A concrete world for the examples -/

/-- The buffer `Export` returns in the examples: a JSON document with a `'%'` in a value
that is not encrypted. -/
def exampleBuffer : GoString := "\x7b\"discount\":\"100%\",\"password\":\"c0ffee\"\x7d".toList

/-- A world with three files, `in.json`, `notes.txt` and `keys.txt`; `secrets.New`
accepts every option set, `Export` returns `exampleBuffer` and `ExportFile` succeeds. -/
def exampleWorld : World where
  Open := fun path =>
    if path = "in.json".toList then
      .ok "\x7b\"discount\":\"100%\",\"password\":\"s3cr3t\"\x7d".toList
    else if path = "notes.txt".toList then
      .ok "API_KEY=abc123\n".toList
    else if path = "keys.txt".toList then
      .ok "# secure paths\n  password \n\n\t# none below\ndb.token".toList
    else
      .error ("open ".toList ++ path ++ ": no such file or directory".toList)
  GetPasswdMasked := .ok (bytes "testing".toList)
  GetPasswdMaskedEcho := "*******\n".toList
  New := fun _ => .ok { Export := fun _ => .ok exampleBuffer, ExportFile := fun _ _ _ => none }

/-- The flags of `secrets encrypt --in in.json --out /dev/stdout --key password` with the
passphrase in the environment. -/
def exampleContext : Context where
  inFlag := "in.json".toList
  outFlag := "/dev/stdout".toList
  formatFlag := []
  strategyFlag := "symmetric".toList
  passphraseFlag := "testing".toList
  keyFlag := some ["password".toList]
  keyFileFlag := []
  flagLogLevel := "none".toList

/-- The lines the key-file loop is to keep, in the words of the spec: every line of the
file, trimmed, unless it is blank then or begins with `'#'`. -/
def keyLines (content : GoString) : List GoString :=
  ((content.splitOn '\n').map TrimSpace).filter fun line =>
    decide (line ≠ [] ∧ line.head? ≠ some '#')

/-- The example with the input `notes.txt`, whose extension is no supported format. -/
def notesContext : Context := { exampleContext with inFlag := "notes.txt".toList }

/-- The example with `--format json`. -/
def jsonFlagContext : Context := { exampleContext with formatFlag := "json".toList }

/-- The example with an input file that does not exist. -/
def missingContext : Context := { exampleContext with inFlag := "missing.json".toList }

/-- The example with neither `--key` nor `--key-file`. -/
def noKeyContext : Context := { exampleContext with keyFlag := none }

/-- The example with `--out out.json`. -/
def outFileContext : Context := { exampleContext with outFlag := "out.json".toList }

/-- The example with `--out in.json`, the input path. -/
def inPlaceContext : Context := { exampleContext with outFlag := "in.json".toList }

/-- The example with `--key-file keys.txt` and no `--key`. -/
def keyFileContext : Context :=
  { exampleContext with keyFlag := none, keyFileFlag := "keys.txt".toList }

/-- The example with `--key-file keys.txt`, no `--key` and `--log-level verbose`. -/
def badLevelContext : Context := { keyFileContext with flagLogLevel := "verbose".toList }

/-- The example with no passphrase in flag or environment: the command prompts. -/
def promptContext : Context := { exampleContext with passphraseFlag := [] }

/-- The example world with a `secrets.New` that fails. -/
def failingWorld : World :=
  { exampleWorld with New := fun _ => .error "unable to locate secure path".toList }

/-! ## Lemmas on hex and padding -/

theorem fromHexChar_hexDigit : ∀ n : Fin 16, fromHexChar (hexDigit n.val) = some n.val := by
  decide

theorem DecodeString_EncodeToString (bs : List Byte) :
    DecodeString (EncodeToString bs) = some bs := by
  induction bs with
  | nil => rfl
  | cons b rest ih =>
    have h1 := fromHexChar_hexDigit ⟨b.val / 16, by omega⟩
    have h2 := fromHexChar_hexDigit ⟨b.val % 16, by omega⟩
    simp only at h1 h2
    have hb : byte (b.val / 16 * 16 + b.val % 16) = b := by
      apply Fin.ext
      simp only [byte]
      omega
    simp only [EncodeToString, DecodeString, h1, h2, ih, hb]

theorem EncodeToString_injective {xs ys : List Byte}
    (h : EncodeToString xs = EncodeToString ys) : xs = ys := by
  have := DecodeString_EncodeToString xs
  rw [h, DecodeString_EncodeToString] at this
  exact (Option.some.inj this).symm

theorem TestPadding_expected_eq :
    TestPadding.expected
      = EncodeToString [1, 1, 1, 0, 0, 0, 0, 0, 0, 0, 0, 0, 0, 0, 0, 12] := by
  decide

/-- Whatever functions are put under test, `TestPadding` passes only when the padded
buffer is `01 01 01`, twelve zero bytes, `0c`, and unpadding gives the data back. -/
theorem TestPadding_passes_iff (pad : List Byte → Nat → Option (List Byte))
    (unpad : List Byte → Option (List Byte)) :
    TestPadding pad unpad = true ↔
      pad [1, 1, 1] 16 = some [1, 1, 1, 0, 0, 0, 0, 0, 0, 0, 0, 0, 0, 0, 0, 12] ∧
      unpad [1, 1, 1, 0, 0, 0, 0, 0, 0, 0, 0, 0, 0, 0, 0, 12] = some [1, 1, 1] := by
  unfold TestPadding
  rw [TestPadding_expected_eq]
  constructor
  · intro h
    cases hp : pad [1, 1, 1] 16 with
    | none => simp [hp] at h
    | some buf =>
      simp only [hp] at h
      by_cases he : EncodeToString buf
          = EncodeToString [1, 1, 1, 0, 0, 0, 0, 0, 0, 0, 0, 0, 0, 0, 0, 12]
      · have hb := EncodeToString_injective he
        subst hb
        cases hu : unpad [1, 1, 1, 0, 0, 0, 0, 0, 0, 0, 0, 0, 0, 0, 0, 12] with
        | none => simp [hu] at h
        | some u =>
          simp [hu] at h
          simp [h]
      · simp [he] at h
  · rintro ⟨hp, hu⟩
    simp [hp, hu]

theorem pkcs7Pad_of_pos (d : List Byte) {b : Nat} (hb : 0 < b) :
    pkcs7Pad d b
      = some (d ++ List.replicate (b - d.length % b - 1) 0 ++ [byte (b - d.length % b - 1)]) := by
  simp [pkcs7Pad, Nat.pos_iff_ne_zero.mp hb]

theorem pkcs7Unpad_fill (d : List Byte) (p : Nat) (hp : p < 256) :
    pkcs7Unpad (d ++ List.replicate p 0 ++ [byte p]) = some d := by
  have hv : (byte p).val = p := by simp [byte, Nat.mod_eq_of_lt hp]
  unfold pkcs7Unpad
  rw [List.getLast?_concat]
  simp only [hv, List.length_append, List.length_replicate, List.length_singleton]
  rw [if_pos (by omega)]
  have : d.length + p + 1 - (p + 1) = d.length := by omega
  rw [this, List.append_assoc, List.take_left']
  rfl
/-! ## Lemmas on the effect monad -/

@[simp] theorem Eff.pure_result {α : Type} (a : α) : (pure a : Eff α).result = .ok a := rfl

@[simp] theorem Eff.pure_trace {α : Type} (a : α) : (pure a : Eff α).trace = [] := rfl

theorem Eff.bind_ok {α β : Type} {x : Eff α} {a : α} (f : α → Eff β) (h : x.result = .ok a) :
    (x >>= f) = ⟨(f a).result, x.trace ++ (f a).trace⟩ := by
  show Eff.bind x f = _
  simp only [Eff.bind, h]

theorem Eff.bind_error {α β : Type} {x : Eff α} {e : Failure} (f : α → Eff β)
    (h : x.result = .error e) : (x >>= f) = ⟨.error e, x.trace⟩ := by
  show Eff.bind x f = _
  simp only [Eff.bind, h]

@[simp] theorem emit_result (e : Event) : (emit e).result = .ok () := rfl

@[simp] theorem emit_trace (e : Event) : (emit e).trace = [e] := rfl

@[simp] theorem fail_result {α : Type} (e : Error) : (fail e : Eff α).result = .error (.error e) :=
  rfl

@[simp] theorem fail_trace {α : Type} (e : Error) : (fail e : Eff α).trace = [] := rfl

@[simp] theorem try?_trace {α : Type} (r : Except Error α) : (try? r).trace = [] := by
  cases r <;> rfl

theorem try?_result {α : Type} (r : Except Error α) :
    (try? r).result = match r with
      | .ok a => .ok a
      | .error e => .error (.error e) := by
  cases r <;> rfl

/-! ## Lemmas on `getFormatFromPath` -/

theorem LastIndexByte_ge (s : GoString) (c : Char) : -1 ≤ LastIndexByte s c := by
  induction s with
  | nil => simp [LastIndexByte]
  | cons x xs ih =>
    simp only [LastIndexByte]
    split_ifs <;> omega

theorem LastIndexByte_of_not_mem {s : GoString} {c : Char} (h : c ∉ s) :
    LastIndexByte s c = -1 := by
  induction s with
  | nil => rfl
  | cons x xs ih =>
    simp only [List.mem_cons, not_or] at h
    simp only [LastIndexByte, ih h.2]
    rw [if_neg (by omega), if_neg (fun hx => h.1 hx.symm)]

theorem LastIndexByte_append_cons (pre : GoString) {e : GoString} {c : Char} (h : c ∉ e) :
    LastIndexByte (pre ++ c :: e) c = pre.length := by
  induction pre with
  | nil =>
    show LastIndexByte (c :: e) c = _
    simp [LastIndexByte, LastIndexByte_of_not_mem h]
  | cons x xs ih =>
    show LastIndexByte (x :: (xs ++ c :: e)) c = _
    simp only [LastIndexByte, ih, List.length_cons]
    rw [if_pos (by omega)]
    push_cast
    rfl

theorem getFormatFromPath_cons (c : Char) (cs : GoString) :
    getFormatFromPath (c :: cs)
      = ⟨.ok (if (c :: cs).drop (LastIndexByte (c :: cs) '.' + 1).toNat = "yml".toList
              then "yaml".toList
              else (c :: cs).drop (LastIndexByte (c :: cs) '.' + 1).toNat),
         [.logPrintf ("Using format: ".toList
            ++ (if (c :: cs).drop (LastIndexByte (c :: cs) '.' + 1).toNat = "yml".toList
              then "yaml".toList
              else (c :: cs).drop (LastIndexByte (c :: cs) '.' + 1).toNat))]⟩ := by
  rfl

/-- Without a `'.'` in the path the whole path is the extension. -/
theorem getFormatFromPath_of_no_dot {path : GoString} (hne : path ≠ []) (h : '.' ∉ path) :
    (getFormatFromPath path).result
      = .ok (if path = "yml".toList then "yaml".toList else path) := by
  cases path with
  | nil => exact absurd rfl hne
  | cons c cs =>
    rw [getFormatFromPath_cons, LastIndexByte_of_not_mem h]
    rfl

/-- With a `'.'` in the path the text after the last one is the extension. -/
theorem getFormatFromPath_of_ext (pre : GoString) {e : GoString} (h : '.' ∉ e) :
    (getFormatFromPath (pre ++ '.' :: e)).result
      = .ok (if e = "yml".toList then "yaml".toList else e) := by
  have hd : (pre ++ '.' :: e).drop (LastIndexByte (pre ++ '.' :: e) '.' + 1).toNat = e := by
    rw [LastIndexByte_append_cons pre h]
    have : ((pre.length : Int) + 1).toNat = pre.length + 1 := by omega
    rw [this, List.drop_append_eq_append_drop]
    simp
  cases hp : pre ++ '.' :: e with
  | nil => simp at hp
  | cons c cs =>
    rw [getFormatFromPath_cons, ← hp, hd]

theorem getFormatFromPath_trace_of_ne {path : GoString} (hne : path ≠ []) :
    ∃ f, getFormatFromPath path = ⟨.ok f, [.logPrintf ("Using format: ".toList ++ f)]⟩ := by
  cases path with
  | nil => exact absurd rfl hne
  | cons c cs => exact ⟨_, getFormatFromPath_cons c cs⟩
/-! ## Lemmas on the traces of the steps -/

theorem Eff.forall_trace_bind {α β : Type} {x : Eff α} {f : α → Eff β} {P : Event → Prop}
    (hx : ∀ ev ∈ x.trace, P ev) (hf : ∀ a, x.result = .ok a → ∀ ev ∈ (f a).trace, P ev) :
    ∀ ev ∈ (x >>= f).trace, P ev := by
  intro ev hev
  cases h : x.result with
  | ok a =>
    rw [Eff.bind_ok f h] at hev
    rcases List.mem_append.mp hev with h1 | h1
    · exact hx ev h1
    · exact hf a h ev h1
  | error e =>
    rw [Eff.bind_error f h] at hev
    exact hx ev hev

theorem Eff.result_bind_of_error {α β : Type} {x : Eff α} {e : Failure} (f : α → Eff β)
    (h : x.result = .error e) : (x >>= f).result = .error e := by
  rw [Eff.bind_error f h]

theorem getInputPaths.loop_trace (l : LogLevel) (fuel : Nat) :
    ∀ (reader : GoString) (keys : List GoString),
      ∀ ev ∈ (getInputPaths.loop l fuel reader keys).trace, ∃ m, ev = .debugf l m := by
  induction fuel with
  | zero =>
    intro reader keys ev hev
    simp [getInputPaths.loop] at hev
  | succ n ih =>
    intro reader keys
    unfold getInputPaths.loop
    simp only []
    split_ifs
    · apply Eff.forall_trace_bind
      · intro ev hev
        simp only [emit_trace, List.mem_singleton] at hev
        exact ⟨_, hev⟩
      · intro _ _
        exact ih _ _
    · intro ev hev
      simp at hev
    · exact ih _ _

theorem getInputPaths_trace (w : World) (ctx : Context) :
    ∀ ev ∈ (getInputPaths w ctx).trace, ∃ l m, ev = .debugf l m := by
  unfold getInputPaths
  simp only []
  apply Eff.forall_trace_bind
  · intro ev hev
    simp at hev
  · intro level _
    apply Eff.forall_trace_bind
    · cases ctx.keyFlag with
      | some keys =>
        intro ev hev
        simp at hev
      | none =>
        simp only []
        split_ifs
        · intro ev hev
          simp at hev
        · apply Eff.forall_trace_bind
          · intro ev hev
            simp at hev
          · intro fd _ ev hev
            obtain ⟨m, hm⟩ := getInputPaths.loop_trace level _ _ _ ev hev
            exact ⟨_, _, hm⟩
    · intro keys _
      apply Eff.forall_trace_bind
      · intro ev hev
        simp only [emit_trace, List.mem_singleton] at hev
        exact ⟨_, _, hev⟩
      · intro _ _ ev hev
        simp at hev

theorem Sprintf_prompt : Sprintf "Passphrase: ".toList = "Passphrase: ".toList := by
  decide

/-- The events of `getCipher`: the prompt, the call of `gopass.GetPasswdMasked` and its
echo, all three only when no passphrase comes with the flags. -/
theorem getCipher_trace (w : World) (ctx : Context) :
    ∀ ev ∈ (getCipher w ctx).trace,
      ctx.passphraseFlag = [] ∧
      (ev = .stderr "Passphrase: ".toList ∨ ev = .getPasswdMasked ∨
        ev = .stdout w.GetPasswdMaskedEcho) := by
  unfold getCipher
  simp only []
  split_ifs with hs hp
  · intro ev hev
    simp at hev
  · have hpass : ctx.passphraseFlag = [] := by
      simpa using hp
    apply Eff.forall_trace_bind
    · intro ev hev
      simp only [FprintfStderr, emit_trace, List.mem_singleton, Sprintf_prompt] at hev
      exact ⟨hpass, Or.inl hev⟩
    · intro _ _
      apply Eff.forall_trace_bind
      · intro ev hev
        simp only [emit_trace, List.mem_singleton] at hev
        exact ⟨hpass, Or.inr (Or.inl hev)⟩
      · intro _ _
        apply Eff.forall_trace_bind
        · intro ev hev
          simp only [emit_trace, List.mem_singleton] at hev
          exact ⟨hpass, Or.inr (Or.inr hev)⟩
        · intro _ _
          apply Eff.forall_trace_bind
          · intro ev hev
            simp at hev
          · intro _ _ ev hev
            simp at hev
  · intro ev hev
    simp at hev

theorem Action.format_of_flag {ctx : Context} (h : ctx.formatFlag ≠ []) :
    Action.format ctx = ⟨.ok ctx.formatFlag, []⟩ := by
  simp only [Action.format, if_neg h]
  rfl

theorem Action.format_of_no_flag {ctx : Context} (h : ctx.formatFlag = []) :
    Action.format ctx = getFormatFromPath ctx.inFlag := by
  simp only [Action.format, if_pos h]

theorem Action.format_trace (ctx : Context) :
    ∀ ev ∈ (Action.format ctx).trace,
      ctx.formatFlag = [] ∧
        ∃ f, (Action.format ctx).result = .ok f ∧ ev = .logPrintf ("Using format: ".toList ++ f) := by
  intro ev hev
  by_cases h : ctx.formatFlag = []
  · refine ⟨h, ?_⟩
    rw [Action.format_of_no_flag h] at hev ⊢
    cases hp : ctx.inFlag with
    | nil =>
      rw [hp] at hev
      simp [getFormatFromPath] at hev
    | cons c cs =>
      rw [hp] at hev
      rw [getFormatFromPath_cons] at hev ⊢
      simp only [List.mem_singleton] at hev
      exact ⟨_, rfl, hev⟩
  · rw [Action.format_of_flag h] at hev
    simp at hev
/-! ## Lemmas on `Action` -/

theorem Eff.result_bind_ok {α β : Type} {x : Eff α} {f : α → Eff β} {b : β}
    (h : (x >>= f).result = .ok b) : ∃ a, x.result = .ok a ∧ (f a).result = .ok b := by
  cases hx : x.result with
  | ok a =>
    rw [Eff.bind_ok f hx] at h
    exact ⟨a, rfl, h⟩
  | error e =>
    rw [Eff.bind_error f hx] at h
    cases h

/-- The events of the steps before output. -/
theorem Action.prepare_trace (w : World) (ctx : Context) :
    ∀ ev ∈ (Action.prepare w ctx).trace,
      (∃ l m, ev = .debugf l m) ∨
      (ctx.formatFlag = [] ∧ ∃ f, (Action.format ctx).result = .ok f ∧
        ev = .logPrintf ("Using format: ".toList ++ f)) ∨
      (ctx.passphraseFlag = [] ∧
        (ev = .stderr "Passphrase: ".toList ∨ ev = .getPasswdMasked ∨
          ev = .stdout w.GetPasswdMaskedEcho)) ∨
      (∃ o, ev = .secretsNew o ∧ (Action.format ctx).result = .ok o.Format) ∨
      (∃ f, ev = .export f ∧ (Action.format ctx).result = .ok f) := by
  unfold Action.prepare
  simp only []
  apply Eff.forall_trace_bind
  · intro ev hev
    exact Or.inl (getInputPaths_trace w ctx ev hev)
  intro securePaths _
  apply Eff.forall_trace_bind
  · intro ev hev
    exact Or.inr (Or.inl (Action.format_trace ctx ev hev))
  intro format hformat
  apply Eff.forall_trace_bind
  · intro ev hev
    simp at hev
  intro inFile _
  apply Eff.forall_trace_bind
  · intro ev hev
    exact Or.inr (Or.inr (Or.inl (getCipher_trace w ctx ev hev)))
  intro cipher _
  apply Eff.forall_trace_bind
  · intro ev hev
    simp at hev
  intro logLevel _
  apply Eff.forall_trace_bind
  · unfold World.callNew
    apply Eff.forall_trace_bind
    · intro ev hev
      simp only [emit_trace, List.mem_singleton] at hev
      exact Or.inr (Or.inr (Or.inr (Or.inl ⟨_, hev, hformat⟩)))
    · intro _ _ ev hev
      simp at hev
  intro envFile _
  apply Eff.forall_trace_bind
  · unfold EnvFile.callExport
    apply Eff.forall_trace_bind
    · intro ev hev
      simp only [emit_trace, List.mem_singleton] at hev
      exact Or.inr (Or.inr (Or.inr (Or.inr ⟨_, hev, hformat⟩)))
    · intro _ _ ev hev
      simp at hev
  intro buff _ ev hev
  simp at hev

/-- When the steps before output succeed, the format they return is the selected one and
the buffer is the one `Export` returned for it. -/
theorem Action.prepare_ok {w : World} {ctx : Context} {envFile : EnvFile}
    {format buff : GoString}
    (h : (Action.prepare w ctx).result = .ok (envFile, format, buff)) :
    (Action.format ctx).result = .ok format ∧ envFile.Export format = .ok buff := by
  unfold Action.prepare at h
  simp only [] at h
  obtain ⟨securePaths, -, h⟩ := Eff.result_bind_ok h
  obtain ⟨format1, hformat, h⟩ := Eff.result_bind_ok h
  obtain ⟨inFile, -, h⟩ := Eff.result_bind_ok h
  obtain ⟨cipher, -, h⟩ := Eff.result_bind_ok h
  obtain ⟨logLevel, -, h⟩ := Eff.result_bind_ok h
  obtain ⟨envFile1, -, h⟩ := Eff.result_bind_ok h
  obtain ⟨buff1, hbuff, h⟩ := Eff.result_bind_ok h
  simp only [Eff.pure_result, Except.ok.injEq, Prod.mk.injEq] at h
  obtain ⟨rfl, rfl, rfl⟩ := h
  refine ⟨hformat, ?_⟩
  unfold EnvFile.callExport at hbuff
  obtain ⟨_, -, hbuff⟩ := Eff.result_bind_ok hbuff
  rw [try?_result] at hbuff
  cases hE : envFile1.Export format1 with
  | ok b =>
    rw [hE] at hbuff
    simp only [Except.ok.injEq] at hbuff
    rw [hbuff]
  | error e =>
    rw [hE] at hbuff
    cases hbuff

theorem Action_of_prepare_error {w : World} {ctx : Context} {f : Failure}
    (h : (Action.prepare w ctx).result = .error f) :
    Action w ctx = ⟨.error f, (Action.prepare w ctx).trace⟩ := by
  unfold Action
  exact Eff.bind_error _ h

theorem Action_of_prepare_ok {w : World} {ctx : Context} {envFile : EnvFile}
    {format buff : GoString}
    (h : (Action.prepare w ctx).result = .ok (envFile, format, buff)) :
    Action w ctx = ⟨(Action.output ctx envFile format buff).result,
      (Action.prepare w ctx).trace ++ (Action.output ctx envFile format buff).trace⟩ := by
  unfold Action
  exact Eff.bind_ok _ h

theorem EnvFile.callExportFile_trace (envFile : EnvFile) (format path : GoString) (mode : Nat) :
    (envFile.callExportFile format path mode).trace = [.exportFile format path mode] := by
  unfold EnvFile.callExportFile
  rw [Eff.bind_ok _ (emit_result _)]
  cases envFile.ExportFile format path mode <;> rfl

theorem EnvFile.callExportFile_result (envFile : EnvFile) (format path : GoString) (mode : Nat) :
    (envFile.callExportFile format path mode).result
      = match envFile.ExportFile format path mode with
        | some e => .error (.error e)
        | none => .ok () := by
  unfold EnvFile.callExportFile
  rw [Eff.bind_ok _ (emit_result _)]
  cases envFile.ExportFile format path mode <;> rfl

/-- The events of the output stage: one event, which carries the format and the output
path the stage was given. -/
theorem Action.output_trace (ctx : Context) (envFile : EnvFile) (format buff : GoString) :
    (Action.output ctx envFile format buff).trace =
      if ctx.outFlag = "/dev/stdout".toList then [.stdout (Sprintf buff)]
      else if ctx.outFlag = "/dev/stderr".toList then [.stderr (Sprintf buff)]
      else [.exportFile format ctx.outFlag
          (if ctx.outFlag = ctx.inFlag then O_WRONLY ||| O_TRUNC else O_EXCL)] := by
  unfold Action.output
  simp only []
  split_ifs <;> first | rfl | exact EnvFile.callExportFile_trace _ _ _ _
theorem Action_trace_mem {w : World} {ctx : Context} {ev : Event}
    (h : ev ∈ (Action w ctx).trace) :
    ev ∈ (Action.prepare w ctx).trace ∨
      ∃ envFile format buff, (Action.prepare w ctx).result = .ok (envFile, format, buff) ∧
        ev ∈ (Action.output ctx envFile format buff).trace := by
  cases hp : (Action.prepare w ctx).result with
  | error f =>
    rw [Action_of_prepare_error hp] at h
    exact Or.inl h
  | ok r =>
    obtain ⟨envFile, format, buff⟩ := r
    rw [Action_of_prepare_ok hp] at h
    rcases List.mem_append.mp h with h | h
    · exact Or.inl h
    · exact Or.inr ⟨envFile, format, buff, rfl, h⟩

theorem try?_result_ok {α : Type} {r : Except Error α} {a : α} (h : r = .ok a) :
    (try? r).result = .ok a := by
  rw [h]; rfl

theorem try?_result_error {α : Type} {r : Except Error α} {e : Error} (h : r = .error e) :
    (try? r).result = .error (.error e) := by
  rw [h]; rfl

theorem World.callNew_result (w : World) (opts : NewEnvOptions) :
    (w.callNew opts).result = (try? (w.New opts)).result := by
  unfold World.callNew
  rw [Eff.bind_ok _ (emit_result _)]

theorem EnvFile.callExport_result (envFile : EnvFile) (format : GoString) :
    (envFile.callExport format).result = (try? (envFile.Export format)).result := by
  unfold EnvFile.callExport
  rw [Eff.bind_ok _ (emit_result _)]

/-- A failing step before output makes the whole of `Action.prepare` fail with the error
of that step. -/
theorem Action.prepare_of_failsBeforeOutput {w : World} {ctx : Context} {e : Error}
    (h : Action.failsBeforeOutput w ctx e) :
    (Action.prepare w ctx).result = .error (.error e) := by
  unfold Action.prepare
  simp only []
  rcases h with h | ⟨securePaths, format, h1, h2, h⟩
  · exact Eff.result_bind_of_error _ h
  rw [Eff.bind_ok _ h1, Eff.bind_ok _ h2]
  simp only []
  rcases h with h | ⟨inFile, h3, h⟩
  · exact Eff.result_bind_of_error _ (try?_result_error h)
  rw [Eff.bind_ok _ (try?_result_ok h3)]
  simp only []
  rcases h with h | ⟨cipher, h4, h⟩
  · exact Eff.result_bind_of_error _ h
  rw [Eff.bind_ok _ h4]
  simp only []
  rcases h with h | ⟨logLevel, h5, h⟩
  · exact Eff.result_bind_of_error _ (try?_result_error h)
  rw [Eff.bind_ok _ (try?_result_ok h5)]
  simp only []
  rcases h with h | ⟨envFile, h6, h⟩
  · exact Eff.result_bind_of_error _ ((World.callNew_result _ _).trans (try?_result_error h))
  rw [Eff.bind_ok _ ((World.callNew_result _ _).trans (try?_result_ok h6))]
  simp only []
  exact Eff.result_bind_of_error _ ((EnvFile.callExport_result _ _).trans (try?_result_error h))

theorem Sprintf_of_no_percent {s : GoString} (h : '%' ∉ s) : Sprintf s = s := by
  have h1 : s.takeWhile (fun c => decide (c ≠ '%')) = s := by
    rw [List.takeWhile_eq_self_iff]
    intro c hc
    simp only [ne_eq, decide_not, Bool.not_eq_eq_eq_not, Bool.not_true, decide_eq_false_iff_not]
    rintro rfl
    exact h hc
  have h2 : s.dropWhile (fun c => decide (c ≠ '%')) = [] := by
    rw [List.dropWhile_eq_nil_iff]
    intro c hc
    simp only [ne_eq, decide_not, Bool.not_eq_eq_eq_not, Bool.not_true, decide_eq_false_iff_not]
    rintro rfl
    exact h hc
  simp only [Sprintf, doPrintf, h1, h2]
/-! ## Where a panic can come from -/

theorem Eff.result_bind_error {α β : Type} {x : Eff α} {f : α → Eff β} {g : Failure}
    (h : (x >>= f).result = .error g) :
    x.result = .error g ∨ ∃ a, x.result = .ok a ∧ (f a).result = .error g := by
  cases hx : x.result with
  | ok a =>
    rw [Eff.bind_ok f hx] at h
    exact Or.inr ⟨a, rfl, h⟩
  | error e =>
    rw [Eff.bind_error f hx] at h
    exact Or.inl (by simpa using h)

theorem try?_result_ne_panic {α : Type} (r : Except Error α) :
    (try? r).result ≠ .error .panic := by
  cases r <;> simp [try?, fail]

theorem getInputPaths.loop_ne_panic (l : LogLevel) (fuel : Nat) :
    ∀ (reader : GoString) (keys : List GoString),
      (getInputPaths.loop l fuel reader keys).result ≠ .error .panic := by
  induction fuel with
  | zero =>
    intro reader keys
    simp [getInputPaths.loop]
  | succ n ih =>
    intro reader keys
    unfold getInputPaths.loop
    simp only []
    split_ifs
    · rw [Eff.bind_ok _ (emit_result _)]
      exact ih _ _
    · simp
    · exact ih _ _

theorem getInputPaths_ne_panic (w : World) (ctx : Context) :
    (getInputPaths w ctx).result ≠ .error .panic := by
  intro h
  unfold getInputPaths at h
  simp only [] at h
  rcases Eff.result_bind_error h with h | ⟨level, -, h⟩
  · exact try?_result_ne_panic _ h
  rcases Eff.result_bind_error h with h | ⟨keys, -, h⟩
  · cases hk : ctx.keyFlag with
    | some keys =>
      rw [hk] at h
      simp at h
    | none =>
      rw [hk] at h
      simp only [] at h
      split_ifs at h
      · simp at h
      · rcases Eff.result_bind_error h with h | ⟨fd, -, h⟩
        · exact try?_result_ne_panic _ h
        · exact getInputPaths.loop_ne_panic _ _ _ _ h
  · rw [Eff.bind_ok _ (emit_result _)] at h
    simp at h

theorem getCipher_ne_panic (w : World) (ctx : Context) :
    (getCipher w ctx).result ≠ .error .panic := by
  intro h
  unfold getCipher at h
  simp only [] at h
  split_ifs at h
  · unfold FprintfStderr at h
    rw [Eff.bind_ok _ (emit_result _), Eff.bind_ok _ (emit_result _),
      Eff.bind_ok _ (emit_result _)] at h
    simp only [] at h
    rcases Eff.result_bind_error h with h | ⟨_, -, h⟩
    · exact try?_result_ne_panic _ h
    · simp at h
  · simp at h

theorem Action.output_ne_panic (ctx : Context) (envFile : EnvFile) (format buff : GoString) :
    (Action.output ctx envFile format buff).result ≠ .error .panic := by
  unfold Action.output
  simp only []
  split_ifs
  · simp [Printf]
  · simp [FprintfStderr]
  · rw [EnvFile.callExportFile_result]
    cases envFile.ExportFile format ctx.outFlag (O_WRONLY ||| O_TRUNC) <;> simp
  · rw [EnvFile.callExportFile_result]
    cases envFile.ExportFile format ctx.outFlag O_EXCL <;> simp

/-- The command panics only in `getFormatFromPath`. -/
theorem Action_panic {w : World} {ctx : Context} (h : (Action w ctx).result = .error .panic) :
    (Action.format ctx).result = .error .panic := by
  unfold Action at h
  rcases Eff.result_bind_error h with h | ⟨⟨envFile, format, buff⟩, -, h⟩
  · unfold Action.prepare at h
    simp only [] at h
    rcases Eff.result_bind_error h with h | ⟨_, -, h⟩
    · exact absurd h (getInputPaths_ne_panic w ctx)
    rcases Eff.result_bind_error h with h | ⟨_, -, h⟩
    · exact h
    rcases Eff.result_bind_error h with h | ⟨_, -, h⟩
    · exact absurd h (try?_result_ne_panic _)
    rcases Eff.result_bind_error h with h | ⟨_, -, h⟩
    · exact absurd h (getCipher_ne_panic w ctx)
    rcases Eff.result_bind_error h with h | ⟨_, -, h⟩
    · exact absurd h (try?_result_ne_panic _)
    rcases Eff.result_bind_error h with h | ⟨_, -, h⟩
    · rw [World.callNew_result] at h
      exact absurd h (try?_result_ne_panic _)
    rcases Eff.result_bind_error h with h | ⟨_, -, h⟩
    · rw [EnvFile.callExport_result] at h
      exact absurd h (try?_result_ne_panic _)
    simp at h
  · exact absurd h (Action.output_ne_panic _ _ _ _)
/-! ## The output stage -/

theorem Action.prepare_filter_isExportFile (w : World) (ctx : Context) :
    (Action.prepare w ctx).trace.filter Event.isExportFile = [] := by
  rw [List.filter_eq_nil_iff]
  intro ev hev
  rcases Action.prepare_trace w ctx ev hev with
    ⟨_, _, h⟩ | ⟨_, _, _, h⟩ | ⟨_, h | h | h⟩ | ⟨_, h, _⟩ | ⟨_, h, _⟩ <;> rw [h] <;>
    simp [Event.isExportFile]

/-- With the output path `/dev/stdout` the command writes `Sprintf buff` to standard
output, the buffer run through `fmt.Printf` as a format string, and returns no error. -/
theorem Action_stdout {w : World} {ctx : Context} {envFile : EnvFile} {format buff : GoString}
    (h : (Action.prepare w ctx).result = .ok (envFile, format, buff))
    (hout : ctx.outFlag = "/dev/stdout".toList) :
    Action w ctx = ⟨.ok (), (Action.prepare w ctx).trace ++ [.stdout (Sprintf buff)]⟩ := by
  rw [Action_of_prepare_ok h, Action.output_trace, if_pos hout]
  simp only [Action.output, if_pos hout]
  rfl

/-- With the output path `/dev/stderr` the command writes `Sprintf buff` to standard
error and returns no error. -/
theorem Action_stderr {w : World} {ctx : Context} {envFile : EnvFile} {format buff : GoString}
    (h : (Action.prepare w ctx).result = .ok (envFile, format, buff))
    (hout : ctx.outFlag = "/dev/stderr".toList) :
    Action w ctx = ⟨.ok (), (Action.prepare w ctx).trace ++ [.stderr (Sprintf buff)]⟩ := by
  have hne : ctx.outFlag ≠ "/dev/stdout".toList := by
    rw [hout]
    decide
  rw [Action_of_prepare_ok h, Action.output_trace, if_neg hne, if_pos hout]
  simp only [Action.output, if_neg hne, if_pos hout]
  rfl

/-- A buffer without `'%'` is printed as it is. -/
theorem Action_stdout_of_no_percent {w : World} {ctx : Context} {envFile : EnvFile}
    {format buff : GoString}
    (h : (Action.prepare w ctx).result = .ok (envFile, format, buff))
    (hout : ctx.outFlag = "/dev/stdout".toList) (hbuff : '%' ∉ buff) :
    Action w ctx = ⟨.ok (), (Action.prepare w ctx).trace ++ [.stdout buff]⟩ := by
  rw [Action_stdout h hout, Sprintf_of_no_percent hbuff]
/-! ## Lemmas on the key-file loop of `getInputPaths` -/

theorem dropWhile_ne_eq_cons {delim d : Char} {rest : GoString} :
    ∀ {reader : GoString}, reader.dropWhile (fun c => decide (c ≠ delim)) = d :: rest →
      d = delim := by
  intro reader
  induction reader with
  | nil => intro h; cases h
  | cons x xs ih =>
    intro h
    by_cases hx : x = delim
    · rw [List.dropWhile_cons_of_neg (by simp [hx])] at h
      cases h
      exact hx
    · rw [List.dropWhile_cons_of_pos (by simp [hx])] at h
      exact ih h

theorem ReadString_cases (reader : GoString) (delim : Char) :
    (delim ∉ reader ∧ ReadString reader delim = (reader, true, [])) ∨
    ∃ pre rest, delim ∉ pre ∧ reader = pre ++ delim :: rest ∧
      ReadString reader delim = (pre ++ [delim], false, rest) := by
  have hsplit := List.takeWhile_append_dropWhile (fun c => decide (c ≠ delim)) reader
  have htake : delim ∉ reader.takeWhile (fun c => decide (c ≠ delim)) := by
    intro hmem
    have := List.mem_takeWhile_imp hmem
    simp at this
  cases hd : reader.dropWhile (fun c => decide (c ≠ delim)) with
  | nil =>
    left
    rw [hd, List.append_nil] at hsplit
    rw [hsplit] at htake
    refine ⟨htake, ?_⟩
    simp only [ReadString, hd, hsplit]
  | cons d rest =>
    right
    have hdelim : d = delim := dropWhile_ne_eq_cons hd
    subst hdelim
    refine ⟨_, rest, htake, ?_, ?_⟩
    · rw [← hd, hsplit]
    · simp only [ReadString, hd]

theorem TrimSpace_nil : TrimSpace [] = [] := rfl

theorem TrimSpace_concat_newline (s : GoString) : TrimSpace (s ++ ['\n']) = TrimSpace s := by
  unfold TrimSpace
  rw [List.rdropWhile_concat_pos _ _ _ (by decide)]

theorem splitOn_of_not_mem {s : GoString} {c : Char} (h : c ∉ s) : s.splitOn c = [s] := by
  unfold List.splitOn
  apply List.splitOnP_eq_single
  intro x hx
  simp only [beq_iff_eq]
  rintro rfl
  exact h hx

theorem splitOn_append_cons {pre : GoString} {c : Char} (h : c ∉ pre) (rest : GoString) :
    (pre ++ c :: rest).splitOn c = pre :: rest.splitOn c := by
  unfold List.splitOn
  apply List.splitOnP_first
  · intro x hx
    simp only [beq_iff_eq]
    rintro rfl
    exact h hx
  · simp

theorem keyLines_of_not_mem {s : GoString} (h : '\n' ∉ s) :
    keyLines s = if TrimSpace s ≠ [] ∧ (TrimSpace s).head? ≠ some '#' then [TrimSpace s]
      else [] := by
  unfold keyLines
  rw [splitOn_of_not_mem h]
  simp only [List.map_cons, List.map_nil, List.filter_cons, List.filter_nil]
  split_ifs <;> simp_all

theorem keyLines_append_cons {pre : GoString} (h : '\n' ∉ pre) (rest : GoString) :
    keyLines (pre ++ '\n' :: rest)
      = (if TrimSpace pre ≠ [] ∧ (TrimSpace pre).head? ≠ some '#' then [TrimSpace pre]
          else []) ++ keyLines rest := by
  unfold keyLines
  rw [splitOn_append_cons h]
  simp only [List.map_cons, List.filter_cons]
  split_ifs <;> simp_all

/-- The key-file loop ends within `len + 2` rounds and returns the key lines of what was
left to read, after the keys it started with. -/
theorem getInputPaths.loop_result (l : LogLevel) (fuel : Nat) :
    ∀ (reader : GoString) (keys : List GoString), reader.length + 2 ≤ fuel →
      (getInputPaths.loop l fuel reader keys).result = .ok (keys ++ keyLines reader) := by
  induction fuel with
  | zero =>
    intro reader keys h
    omega
  | succ n ih =>
    intro reader keys hfuel
    unfold getInputPaths.loop
    rcases ReadString_cases reader '\n' with ⟨hnot, hread⟩ | ⟨pre, rest, hnot, hreader, hread⟩
    · rw [hread, keyLines_of_not_mem hnot]
      simp only []
      by_cases hkeep : TrimSpace reader ≠ [] ∧ (TrimSpace reader).head? ≠ some '#'
      · rw [if_pos hkeep, if_pos hkeep, Eff.bind_ok _ (emit_result _)]
        simp only []
        obtain ⟨m, rfl⟩ : ∃ m, n = m + 1 := ⟨n - 1, by omega⟩
        unfold getInputPaths.loop
        have hr : ReadString [] '\n' = ([], true, []) := rfl
        rw [hr]
        simp only [TrimSpace_nil, ne_eq, not_true_eq_false, false_and, if_false, if_true]
        rfl
      · rw [if_neg hkeep, if_neg hkeep]
        simp
    · rw [hread, hreader, keyLines_append_cons hnot]
      simp only [TrimSpace_concat_newline]
      have hlen : rest.length + 2 ≤ n := by
        rw [hreader] at hfuel
        simp only [List.length_append, List.length_cons] at hfuel
        omega
      by_cases hkeep : TrimSpace pre ≠ [] ∧ (TrimSpace pre).head? ≠ some '#'
      · rw [if_pos hkeep, if_pos hkeep, Eff.bind_ok _ (emit_result _)]
        simp only []
        rw [ih rest _ hlen, List.append_assoc]
      · rw [if_neg hkeep, if_neg hkeep]
        simp only [Bool.false_eq_true, if_false, List.nil_append]
        exact ih rest _ hlen
/-! ## Lemmas on the symmetric cipher -/

theorem pkcs7Pad_length_dvd (d : List Byte) {b : Nat} (hb : 0 < b) :
    b ∣ (d ++ List.replicate (b - d.length % b - 1) 0
      ++ [byte (b - d.length % b - 1)]).length := by
  have hm : d.length % b < b := Nat.mod_lt _ hb
  refine ⟨d.length / b + 1, ?_⟩
  simp only [List.length_append, List.length_replicate, List.length_singleton]
  have hd := Nat.div_add_mod d.length b
  have hr : b * (d.length / b + 1) = b * (d.length / b) + b := by ring
  rw [hr]
  generalize b * (d.length / b) = t at hd
  omega

/-- The three parts of an envelope are found again by their lengths. -/
theorem envelope_split (iv ciphertext signature : List Byte) :
    (iv ++ ciphertext ++ signature).take iv.length = iv ∧
    ((iv ++ ciphertext ++ signature).drop iv.length).take
        ((iv ++ ciphertext ++ signature).length - iv.length - signature.length)
      = ciphertext ∧
    (iv ++ ciphertext ++ signature).drop
        ((iv ++ ciphertext ++ signature).length - signature.length)
      = signature := by
  refine ⟨?_, ?_, ?_⟩
  · rw [List.append_assoc, List.take_left']
    rfl
  · rw [List.append_assoc, List.drop_left']
    · have : (iv ++ (ciphertext ++ signature)).length - iv.length - signature.length
          = ciphertext.length := by
        simp only [List.length_append]
        omega
      rw [this, List.take_left']
      rfl
    · rfl
  · have : (iv ++ ciphertext ++ signature).length - signature.length
        = (iv ++ ciphertext).length := by
      simp only [List.length_append]
      omega
    rw [this, List.drop_left']
    rfl

theorem examplePrimitives_valid : examplePrimitives.Valid where
  blockSize_pos := by decide
  blockSize_le := by decide
  decrypt_encrypt := by
    intro key iv data _ _
    simp only [examplePrimitives, List.map_map]
    conv_rhs => rw [← List.map_id data]
    apply List.map_congr_left
    intro b _
    simp
  mac_length := by
    intro key data
    rfl
/-! ## The fuel of `doPrintf` is never used up -/

theorem parsenum.go_length (s : GoString) :
    ∀ (num : Nat) (isnum : Bool), (parsenum.go s num isnum).2.2.length ≤ s.length := by
  induction s with
  | nil => intro num isnum; simp [parsenum.go]
  | cons c cs ih =>
    intro num isnum
    unfold parsenum.go
    split_ifs
    · simp
    · exact Nat.le_succ_of_le (ih _ _)
    · simp

theorem parsenum_length (s : GoString) : (parsenum s).2.2.length ≤ s.length :=
  parsenum.go_length s 0 false

theorem argNumber_length (s : GoString) : (argNumber s).1.length ≤ s.length := by
  unfold argNumber
  split
  · simp only [List.length_drop]
    omega
  · exact le_refl _

theorem doPrintf.flags_length (s : GoString) : (doPrintf.flags s).length ≤ s.length := by
  unfold doPrintf.flags
  exact (List.dropWhile_sublist _).length_le

theorem doPrintf.width_length (s : GoString) (afterIndex good : Bool) :
    (doPrintf.width s afterIndex good).2.1.length ≤ s.length := by
  unfold doPrintf.width
  split
  · simp
  · exact parsenum_length s

theorem doPrintf.precision_length (s : GoString) (afterIndex good : Bool) :
    (doPrintf.precision s afterIndex good).2.1.length ≤ s.length := by
  unfold doPrintf.precision
  split
  · rename_i c cs
    have h1 := argNumber_length (c :: cs)
    simp only []
    rcases hA : argNumber (c :: cs) with ⟨s2, ai, g2⟩
    rw [hA] at h1
    simp only [] at h1 ⊢
    split
    · rename_i s3
      simp only [List.length_cons] at h1 ⊢
      omega
    · have h2 := parsenum_length s2
      rcases hP : parsenum s2 with ⟨x, y, s3⟩
      rw [hP] at h2
      simp only [List.length_cons] at h1 h2 ⊢
      omega
  · exact le_refl _

theorem doPrintf.verb_length (s : GoString) : (doPrintf.verb s).2.length ≤ s.length := by
  have h1 := doPrintf.flags_length s
  have h2 := argNumber_length (doPrintf.flags s)
  have h3 := doPrintf.width_length (argNumber (doPrintf.flags s)).1
    (argNumber (doPrintf.flags s)).2.1 (argNumber (doPrintf.flags s)).2.2
  generalize hw : doPrintf.width (argNumber (doPrintf.flags s)).1
    (argNumber (doPrintf.flags s)).2.1 (argNumber (doPrintf.flags s)).2.2 = w at h3
  have h4 := doPrintf.precision_length w.2.1 w.2.2.1 w.2.2.2
  generalize hp : doPrintf.precision w.2.1 w.2.2.1 w.2.2.2 = pr at h4
  have h5 := argNumber_length pr.2.1
  unfold doPrintf.verb
  simp only [hw, hp]
  by_cases ha : pr.2.2.1 = true
  · simp only [ha, if_true]
    split
    · simp
    · rename_i verb rest heq
      rw [heq] at h4
      simp only [List.length_cons] at h4
      split_ifs <;> simp only [] <;> omega
  · simp only [ha, Bool.false_eq_true, if_false]
    split
    · simp
    · rename_i verb rest heq
      rw [heq] at h5
      simp only [List.length_cons] at h5
      split_ifs <;> simp only [] <;> omega

/-- Any fuel above the length of the format gives the same output: the loop of `doPrintf`
ends before the fuel of `Sprintf` runs out. -/
theorem doPrintf_fuel (n : Nat) :
    ∀ (m : Nat) (format : GoString), format.length < n → format.length < m →
      doPrintf n format = doPrintf m format := by
  induction n with
  | zero => intro m format h; omega
  | succ n ih =>
    intro m format hn hm
    obtain ⟨m, rfl⟩ : ∃ k, m = k + 1 := ⟨m - 1, by omega⟩
    unfold doPrintf
    have hlen : (format.dropWhile fun c => decide (c ≠ '%')).length ≤ format.length :=
      (List.dropWhile_sublist _).length_le
    cases hd : format.dropWhile fun c => decide (c ≠ '%') with
    | nil => rfl
    | cons c s =>
      rw [hd] at hlen
      simp only [List.length_cons] at hlen
      have hv := doPrintf.verb_length s
      simp only []
      rw [ih m (doPrintf.verb s).2 (by omega) (by omega)]

theorem Sprintf_fuel {format : GoString} {n : Nat} (h : format.length < n) :
    doPrintf n format = Sprintf format :=
  doPrintf_fuel n (format.length + 1) format h (Nat.lt_succ_self _)

/-! ## Facts the claims refer to -/

/-- The padding of the spec's words taken alone does not pass `TestPadding`, whatever
the unpadding. -/
theorem TestPadding_rejects_PKCS7 (unpad : List Byte → Option (List Byte)) :
    TestPadding pkcs7PadPKCS7 unpad = false := by
  cases h : TestPadding pkcs7PadPKCS7 unpad with
  | false => rfl
  | true =>
    have := ((TestPadding_passes_iff _ _).mp h).1
    revert this
    decide

/-- The `"dotenv"` that line 111 of `secrets.go` assigns for a leading `'.'` does not
reach the result: the path `.env` gives the format `env`. -/
theorem getFormatFromPath_dotenv_overwritten :
    (getFormatFromPath ".env".toList).result = .ok "env".toList := by
  decide

/-! ## The claims -/

/-! ### C1 -/

/-- C1: for every plaintext `p`, every passphrase `k` and every IV of one block that
`Encrypt` may draw, the cipher built by `NewSymmetricCipher(k)` encrypts `p` to an
envelope with no error and decrypts that envelope to `p` with no error. -/
theorem Decrypt_Encrypt (prims : Primitives) (hprims : prims.Valid) (k p iv : List Byte)
    (hiv : iv.length = prims.blockSize) :
    ∃ envelope, (NewSymmetricCipher k).Encrypt prims iv p = .ok envelope ∧
      (NewSymmetricCipher k).Decrypt prims envelope = .ok p := by
  have hpos : 0 < prims.blockSize := hprims.blockSize_pos
  have hm : p.length % prims.blockSize < prims.blockSize := Nat.mod_lt _ hpos
  have hle := hprims.blockSize_le
  obtain ⟨encKey, macKey, hkeys⟩ : ∃ a b, prims.deriveKeys k = (a, b) := ⟨_, _, rfl⟩
  have hpad := pkcs7Pad_of_pos p hpos
  have hdvd := pkcs7Pad_length_dvd p hpos
  have hunpad := pkcs7Unpad_fill p (prims.blockSize - p.length % prims.blockSize - 1) (by omega)
  generalize p ++ List.replicate (prims.blockSize - p.length % prims.blockSize - 1) 0
    ++ [byte (prims.blockSize - p.length % prims.blockSize - 1)] = padded at hpad hdvd hunpad
  have hsplit := envelope_split iv (prims.encryptBlocks encKey iv padded)
    (sign prims macKey (iv ++ prims.encryptBlocks encKey iv padded))
  have hsig : (sign prims macKey (iv ++ prims.encryptBlocks encKey iv padded)).length
      = prims.signatureSize := hprims.mac_length _ _
  rw [hsig, hiv] at hsplit
  obtain ⟨h1, h2, h3⟩ := hsplit
  refine ⟨EncodeToString (iv ++ prims.encryptBlocks encKey iv padded
    ++ sign prims macKey (iv ++ prims.encryptBlocks encKey iv padded)), ?_, ?_⟩
  · simp only [SimpleCipher.Encrypt, NewSymmetricCipher, hkeys, hpad]
  · have hlen : ¬ (iv ++ prims.encryptBlocks encKey iv padded
        ++ sign prims macKey (iv ++ prims.encryptBlocks encKey iv padded)).length
        < prims.blockSize + prims.signatureSize := by
      simp only [List.length_append, hsig, hiv]
      omega
    simp only [SimpleCipher.Decrypt, NewSymmetricCipher, hkeys, DecodeString_EncodeToString,
      if_neg hlen, h1, h2, h3, verify, decide_True, Bool.not_true, Bool.false_eq_true,
      if_false, hprims.decrypt_encrypt encKey iv padded hiv hdvd, hunpad]

theorem Decrypt_Encrypt_witness :
    (examplePrimitives.Valid ∧
      (List.replicate 16 (7 : Byte)).length = examplePrimitives.blockSize) ∧
    (NewSymmetricCipher (bytes "testing".toList)).Encrypt examplePrimitives
        (List.replicate 16 7) (bytes "foobar".toList)
      = .ok "07070707070707070707070707070707e1eaeadddced7b7b7b7b7b7b7b7b7b84276e".toList ∧
    ∃ envelope,
      (NewSymmetricCipher (bytes "testing".toList)).Encrypt examplePrimitives
          (List.replicate 16 7) (bytes "foobar".toList)
        = .ok envelope ∧
      (NewSymmetricCipher (bytes "testing".toList)).Decrypt examplePrimitives envelope
        = .ok (bytes "foobar".toList) :=
  ⟨⟨examplePrimitives_valid, by decide⟩, by decide,
    Decrypt_Encrypt examplePrimitives examplePrimitives_valid (bytes "testing".toList)
      (bytes "foobar".toList) (List.replicate 16 7) (by decide)⟩

/-! ### C2 -/

/-- C2: for a block size `1 ≤ b ≤ 255`, unpadding the padded buffer gives the data back,
and the padded length is a positive multiple of `b` strictly above the length of the
data. -/
theorem pkcs7Unpad_pkcs7Pad (d : List Byte) (b : Nat) (h1 : 1 ≤ b) (h255 : b ≤ 255) :
    ∃ padded, pkcs7Pad d b = some padded ∧ pkcs7Unpad padded = some d ∧
      (∃ m, 0 < m ∧ padded.length = m * b) ∧ d.length < padded.length := by
  have hm : d.length % b < b := Nat.mod_lt _ h1
  refine ⟨_, pkcs7Pad_of_pos d h1, pkcs7Unpad_fill d _ (by omega), ?_, ?_⟩
  · refine ⟨d.length / b + 1, Nat.succ_pos _, ?_⟩
    simp only [List.length_append, List.length_replicate, List.length_singleton]
    have hd := Nat.div_add_mod d.length b
    have hr : (d.length / b + 1) * b = b * (d.length / b) + b := by ring
    rw [hr]
    generalize b * (d.length / b) = t at hd
    omega
  · simp only [List.length_append, List.length_replicate, List.length_singleton]
    omega

theorem pkcs7Unpad_pkcs7Pad_witness :
    (1 ≤ 16 ∧ 16 ≤ 255) ∧
      ∃ padded, pkcs7Pad [1, 1, 1] 16 = some padded ∧ pkcs7Unpad padded = some [1, 1, 1] ∧
        (∃ m, 0 < m ∧ padded.length = m * 16) ∧ [(1 : Byte), 1, 1].length < padded.length :=
  ⟨by decide, pkcs7Unpad_pkcs7Pad [1, 1, 1] 16 (by decide) (by decide)⟩

/-! ### C3 -/

/-- C3, as stated, fails on the buffer of `TestPadding`: the thirteen bytes appended to
`01 01 01` for block size 16 are not thirteen bytes of value 13, and the trailing byte
(12) is not the number of bytes appended (13).  `TestPadding` passes on this padding and
fails on the padding of the claim. -/
theorem pkcs7Pad_not_PKCS7 :
    TestPadding pkcs7Pad pkcs7Unpad = true ∧
    TestPadding pkcs7PadPKCS7 pkcs7Unpad = false ∧
    pkcs7Pad [1, 1, 1] 16 = some ([1, 1, 1] ++ [0, 0, 0, 0, 0, 0, 0, 0, 0, 0, 0, 0, 12]) ∧
    (¬ ∃ pad : List Byte, pkcs7Pad [1, 1, 1] 16 = some ([1, 1, 1] ++ pad) ∧
        pad.length = 16 - 3 % 16 ∧ ∀ x ∈ pad, x.val = 16 - 3 % 16) ∧
    (¬ ∃ pad : List Byte, pkcs7Pad [1, 1, 1] 16 = some ([1, 1, 1] ++ pad) ∧
        (pad.getLast?.map fun x => x.val) = some pad.length) := by
  refine ⟨by decide, by decide, by decide, ?_, ?_⟩
  · rintro ⟨pad, hp, -, hall⟩
    have h0 : pkcs7Pad [1, 1, 1] 16
        = some ([1, 1, 1] ++ [0, 0, 0, 0, 0, 0, 0, 0, 0, 0, 0, 0, 12]) := by decide
    rw [h0] at hp
    have := List.append_cancel_left (Option.some.inj hp)
    subst this
    have := hall 12 (by simp)
    revert this
    decide
  · rintro ⟨pad, hp, hlast⟩
    have h0 : pkcs7Pad [1, 1, 1] 16
        = some ([1, 1, 1] ++ [0, 0, 0, 0, 0, 0, 0, 0, 0, 0, 0, 0, 12]) := by decide
    rw [h0] at hp
    have := List.append_cancel_left (Option.some.inj hp)
    subst this
    revert hlast
    decide

/-- C3, amended: for a block size `b ≥ 1`, `pkcs7Pad` appends exactly
`k = b - (n mod b)` bytes, `1 ≤ k ≤ b`: `k - 1` zero bytes and then one byte of value
`(k - 1) mod 256`, so for `b ≤ 256` the trailing byte is one less than the number of
bytes appended. -/
theorem pkcs7Pad_layout (d : List Byte) (b : Nat) (hb : 1 ≤ b) :
    ∃ pad : List Byte, pkcs7Pad d b = some (d ++ pad) ∧
      pad.length = b - d.length % b ∧ 1 ≤ pad.length ∧ pad.length ≤ b ∧
      pad = List.replicate (pad.length - 1) 0 ++ [byte (pad.length - 1)] ∧
      (b ≤ 256 → (pad.getLast?.map fun x => x.val) = some (pad.length - 1)) := by
  have hm : d.length % b < b := Nat.mod_lt _ hb
  refine ⟨List.replicate (b - d.length % b - 1) 0 ++ [byte (b - d.length % b - 1)], ?_, ?_⟩
  · rw [pkcs7Pad_of_pos d hb, List.append_assoc]
  · have hl : (List.replicate (b - d.length % b - 1) (0 : Byte)
        ++ [byte (b - d.length % b - 1)]).length = b - d.length % b := by
      simp only [List.length_append, List.length_replicate, List.length_singleton]
      omega
    rw [hl]
    refine ⟨rfl, by omega, by omega, rfl, ?_⟩
    intro h256
    rw [List.getLast?_concat]
    simp only [Option.map_some', byte]
    congr 1
    exact Nat.mod_eq_of_lt (by omega)

theorem pkcs7Pad_layout_witness :
    1 ≤ 16 ∧
    ∃ pad : List Byte, pkcs7Pad [1, 1, 1] 16 = some ([1, 1, 1] ++ pad) ∧
      pad.length = 16 - [(1 : Byte), 1, 1].length % 16 ∧ 1 ≤ pad.length ∧ pad.length ≤ 16 ∧
      pad = List.replicate (pad.length - 1) 0 ++ [byte (pad.length - 1)] ∧
      (16 ≤ 256 → (pad.getLast?.map fun x => x.val) = some (pad.length - 1)) :=
  ⟨by decide, pkcs7Pad_layout [1, 1, 1] 16 (by decide)⟩

/-! ### C4 -/

/-- C4, as stated, fails on the path `config`, which has no extension: the format returned
is `config`, not `dotenv`. -/
theorem getFormatFromPath_config_not_dotenv :
    (getFormatFromPath "config".toList).result = .ok "config".toList ∧
    (getFormatFromPath "config".toList).result ≠ .ok "dotenv".toList := by
  decide

/-- C4, amended: for a non-empty path with no `'.'` in it (no extension), the format
returned is the path itself (`yaml` for the path `yml`). -/
theorem getFormatFromPath_no_extension (path : GoString) (hne : path ≠ [])
    (hdot : '.' ∉ path) :
    (getFormatFromPath path).result
      = .ok (if path = "yml".toList then "yaml".toList else path) :=
  getFormatFromPath_of_no_dot hne hdot

theorem getFormatFromPath_no_extension_witness :
    ("config".toList ≠ [] ∧ '.' ∉ "config".toList) ∧
    (getFormatFromPath "config".toList).result
      = .ok (if "config".toList = "yml".toList then "yaml".toList else "config".toList) :=
  ⟨by decide, getFormatFromPath_no_extension "config".toList (by decide) (by decide)⟩

/-! ### C5 -/

/-- C5, as stated, fails on the path `notes.txt`: `getFormatFromPath` returns the format
name `txt` and no error, the format selection of the command returns it too, and
`secrets.New` is called with it. -/
theorem getFormatFromPath_txt_no_error :
    (getFormatFromPath "notes.txt".toList).result = .ok "txt".toList ∧
    (Action.format notesContext).result
      = .ok "txt".toList ∧
    Event.secretsNew
        { Format := "txt".toList, Reader := "API_KEY=abc123\n".toList,
          Cipher := NewSymmetricCipher (bytes "testing".toList), LogLevel := .LevelNone,
          SecurePaths := ["password".toList] }
      ∈ (Action exampleWorld notesContext).trace := by
  decide

/-- C5, amended: for a path that does not begin with `'.'` and has an extension `e` other
than `yml`, supported or not, `getFormatFromPath` and the format selection of the command
do not fail: they return `e` itself as the format name, and every call of `secrets.New`
gets that name. -/
theorem getFormatFromPath_unsupported_extension (w : World) (ctx : Context)
    (pre e : GoString) (hdot : '.' ∉ e) (_hhead : (pre ++ '.' :: e).head? ≠ some '.')
    (hyml : e ≠ "yml".toList) (hflag : ctx.formatFlag = [])
    (hin : ctx.inFlag = pre ++ '.' :: e) :
    (getFormatFromPath (pre ++ '.' :: e)).result = .ok e ∧
    (Action.format ctx).result = .ok e ∧
    ∀ o, Event.secretsNew o ∈ (Action w ctx).trace → o.Format = e := by
  have h1 : (getFormatFromPath (pre ++ '.' :: e)).result = .ok e := by
    rw [getFormatFromPath_of_ext pre hdot, if_neg hyml]
  have h2 : (Action.format ctx).result = .ok e := by
    rw [Action.format_of_no_flag hflag, hin, h1]
  refine ⟨h1, h2, ?_⟩
  intro o ho
  rcases Action_trace_mem ho with h | ⟨envFile, format, buff, -, h⟩
  · rcases Action.prepare_trace w ctx _ h with
      ⟨_, _, h⟩ | ⟨_, _, _, h⟩ | ⟨_, h | h | h⟩ | ⟨o2, h, hf⟩ | ⟨_, h, _⟩
    · cases h
    · cases h
    · cases h
    · cases h
    · cases h
    · cases h
      rw [h2] at hf
      exact (Except.ok.inj hf).symm
    · cases h
  · rw [Action.output_trace] at h
    split_ifs at h <;> simp at h

theorem getFormatFromPath_unsupported_extension_witness :
    ('.' ∉ "txt".toList ∧ ("notes".toList ++ '.' :: "txt".toList).head? ≠ some '.' ∧
      "txt".toList ≠ "yml".toList ∧
      notesContext.formatFlag = [] ∧
      notesContext.inFlag
        = "notes".toList ++ '.' :: "txt".toList) ∧
    ((getFormatFromPath ("notes".toList ++ '.' :: "txt".toList)).result = .ok "txt".toList ∧
    (Action.format notesContext).result
      = .ok "txt".toList ∧
    ∀ o, Event.secretsNew o
        ∈ (Action exampleWorld notesContext).trace →
      o.Format = "txt".toList) :=
  ⟨by decide,
    getFormatFromPath_unsupported_extension exampleWorld
      notesContext "notes".toList "txt".toList
      (by decide) (by decide) (by decide) (by decide) (by decide)⟩

/-! ### C6 -/

/-- C6: for a path that does not begin with `'.'` and has the extension `e` (the text
after its last `'.'`), `getFormatFromPath` returns `yaml` when `e` is `yml` or `yaml` and
`e` itself otherwise; in the command a non-empty `--format` flag is the format as it is,
`getFormatFromPath` is not consulted then (no `Using format` line, no panic on an empty
path), and every call of `secrets.New`, `Export` and `ExportFile` gets the flag; with an
empty flag the format is that of `getFormatFromPath`. -/
theorem getFormatFromPath_extension (w : World) (ctx : Context) (pre e : GoString)
    (hdot : '.' ∉ e) (_hhead : (pre ++ '.' :: e).head? ≠ some '.') :
    (getFormatFromPath (pre ++ '.' :: e)).result
      = .ok (if e = "yml".toList ∨ e = "yaml".toList then "yaml".toList else e) ∧
    (ctx.formatFlag ≠ [] →
      Action.format ctx = ⟨.ok ctx.formatFlag, []⟩ ∧
      (∀ m, Event.logPrintf m ∉ (Action w ctx).trace) ∧
      (Action w ctx).result ≠ .error .panic ∧
      (∀ o, Event.secretsNew o ∈ (Action w ctx).trace → o.Format = ctx.formatFlag) ∧
      (∀ f, Event.export f ∈ (Action w ctx).trace → f = ctx.formatFlag) ∧
      (∀ f p m, Event.exportFile f p m ∈ (Action w ctx).trace → f = ctx.formatFlag)) ∧
    (ctx.formatFlag = [] → Action.format ctx = getFormatFromPath ctx.inFlag) := by
  refine ⟨?_, ?_, Action.format_of_no_flag⟩
  · rw [getFormatFromPath_of_ext pre hdot]
    by_cases h1 : e = "yml".toList
    · rw [if_pos h1, if_pos (Or.inl h1)]
    · by_cases h2 : e = "yaml".toList
      · rw [if_neg h1, if_pos (Or.inr h2), h2]
      · rw [if_neg h1, if_neg (not_or.mpr ⟨h1, h2⟩)]
  · intro hflag
    have hfmt := Action.format_of_flag hflag
    have hres : (Action.format ctx).result = .ok ctx.formatFlag := by rw [hfmt]
    refine ⟨hfmt, ?_, ?_, ?_, ?_, ?_⟩
    · intro m hm
      rcases Action_trace_mem hm with h | ⟨envFile, format, buff, -, h⟩
      · rcases Action.prepare_trace w ctx _ h with
          ⟨_, _, h⟩ | ⟨h0, _⟩ | ⟨_, h | h | h⟩ | ⟨_, h, _⟩ | ⟨_, h, _⟩
        · cases h
        · exact hflag h0
        · cases h
        · cases h
        · cases h
        · cases h
        · cases h
      · rw [Action.output_trace] at h
        split_ifs at h <;> simp at h
    · intro hpanic
      have := Action_panic hpanic
      rw [hres] at this
      cases this
    · intro o ho
      rcases Action_trace_mem ho with h | ⟨envFile, format, buff, -, h⟩
      · rcases Action.prepare_trace w ctx _ h with
          ⟨_, _, h⟩ | ⟨_, _, _, h⟩ | ⟨_, h | h | h⟩ | ⟨o2, h, hf⟩ | ⟨_, h, _⟩
        · cases h
        · cases h
        · cases h
        · cases h
        · cases h
        · cases h
          rw [hres] at hf
          exact (Except.ok.inj hf).symm
        · cases h
      · rw [Action.output_trace] at h
        split_ifs at h <;> simp at h
    · intro f hf
      rcases Action_trace_mem hf with h | ⟨envFile, format, buff, -, h⟩
      · rcases Action.prepare_trace w ctx _ h with
          ⟨_, _, h⟩ | ⟨_, _, _, h⟩ | ⟨_, h | h | h⟩ | ⟨_, h, _⟩ | ⟨f2, h, hf2⟩
        · cases h
        · cases h
        · cases h
        · cases h
        · cases h
        · cases h
        · cases h
          rw [hres] at hf2
          exact (Except.ok.inj hf2).symm
      · rw [Action.output_trace] at h
        split_ifs at h <;> simp at h
    · intro f p m hf
      rcases Action_trace_mem hf with h | ⟨envFile, format, buff, hp, h⟩
      · rcases Action.prepare_trace w ctx _ h with
          ⟨_, _, h⟩ | ⟨_, _, _, h⟩ | ⟨_, h | h | h⟩ | ⟨_, h, _⟩ | ⟨_, h, _⟩ <;> cases h
      · rw [Action.output_trace] at h
        have hf2 := (Action.prepare_ok hp).1
        rw [hres] at hf2
        split_ifs at h <;> simp at h
        · rw [h.1]; exact (Except.ok.inj hf2).symm
        · rw [h.1]; exact (Except.ok.inj hf2).symm

theorem getFormatFromPath_extension_witness :
    ('.' ∉ "yml".toList ∧ ("secrets".toList ++ '.' :: "yml".toList).head? ≠ some '.') ∧
    ((getFormatFromPath ("secrets".toList ++ '.' :: "yml".toList)).result
      = .ok (if "yml".toList = "yml".toList ∨ "yml".toList = "yaml".toList
          then "yaml".toList else "yml".toList) ∧
    (jsonFlagContext.formatFlag ≠ [] →
      Action.format jsonFlagContext
        = ⟨.ok jsonFlagContext.formatFlag, []⟩ ∧
      (∀ m, Event.logPrintf m ∉
        (Action exampleWorld jsonFlagContext).trace) ∧
      (Action exampleWorld jsonFlagContext).result
        ≠ .error .panic ∧
      (∀ o, Event.secretsNew o ∈
          (Action exampleWorld jsonFlagContext).trace →
        o.Format = jsonFlagContext.formatFlag) ∧
      (∀ f, Event.export f ∈
          (Action exampleWorld jsonFlagContext).trace →
        f = jsonFlagContext.formatFlag) ∧
      (∀ f p m, Event.exportFile f p m ∈
          (Action exampleWorld jsonFlagContext).trace →
        f = jsonFlagContext.formatFlag)) ∧
    (jsonFlagContext.formatFlag = [] →
      Action.format jsonFlagContext
        = getFormatFromPath
            jsonFlagContext.inFlag)) :=
  ⟨by decide,
    getFormatFromPath_extension exampleWorld jsonFlagContext
      "secrets".toList "yml".toList (by decide) (by decide)⟩

/-! ### C7 -/

/-- C7, as stated, fails when `--log-level` is not recognised: `getInputPaths` reads the
log level first and returns its error, although no `--key` is given and `--key-file`
names a readable file. -/
theorem getInputPaths_log_level_first :
    badLevelContext.keyFlag = none ∧
    exampleWorld.Open "keys.txt".toList
      = .ok "# secure paths\n  password \n\n\t# none below\ndb.token".toList ∧
    (getInputPaths exampleWorld
        badLevelContext).result
      = .error (.error "Unrecognized log level: verbose".toList) := by
  decide

/-- C7, amended: when the log level is recognised, no `--key` is given and `--key-file`
names a readable file, `getInputPaths` returns, in file order, exactly the lines of the
file with surrounding white space trimmed, leaving out every line that is then blank or
begins with `'#'`; the loop ends for every file content, within `len + 2` rounds. -/
theorem getInputPaths_key_file (w : World) (ctx : Context) (content : GoString)
    (level : LogLevel) (hlevel : getLogLevel ctx = .ok level) (hkey : ctx.keyFlag = none)
    (hfile : ctx.keyFileFlag ≠ []) (hopen : w.Open ctx.keyFileFlag = .ok content) :
    (getInputPaths w ctx).result
      = .ok (((content.splitOn '\n').map TrimSpace).filter fun line =>
          decide (line ≠ [] ∧ line.head? ≠ some '#')) ∧
    ∀ fuel, content.length + 2 ≤ fuel →
      (getInputPaths.loop level fuel content []).result
        = .ok (((content.splitOn '\n').map TrimSpace).filter fun line =>
            decide (line ≠ [] ∧ line.head? ≠ some '#')) := by
  have hloop : ∀ fuel, content.length + 2 ≤ fuel →
      (getInputPaths.loop level fuel content []).result = .ok (keyLines content) := by
    intro fuel hfuel
    rw [getInputPaths.loop_result level fuel content [] hfuel, List.nil_append]
  refine ⟨?_, hloop⟩
  unfold getInputPaths
  simp only []
  rw [Eff.bind_ok _ (try?_result_ok hlevel)]
  simp only [hkey, if_neg hfile]
  have hinner : (try? (w.Open ctx.keyFileFlag) >>= fun fd =>
      getInputPaths.loop level (fd.length + 2) fd []).result = .ok (keyLines content) := by
    rw [Eff.bind_ok _ (try?_result_ok hopen)]
    exact hloop _ (le_refl _)
  rw [Eff.bind_ok _ hinner]
  simp only []
  rw [Eff.bind_ok _ (emit_result _)]
  rfl

theorem getInputPaths_key_file_witness :
    (getLogLevel keyFileContext
        = .ok .LevelNone ∧
      keyFileContext.keyFlag = none ∧
      keyFileContext.keyFileFlag ≠ [] ∧
      exampleWorld.Open "keys.txt".toList
        = .ok "# secure paths\n  password \n\n\t# none below\ndb.token".toList) ∧
    (getInputPaths exampleWorld
        keyFileContext).result
      = .ok ["password".toList, "db.token".toList] :=
  ⟨by decide,
    (getInputPaths_key_file exampleWorld
      keyFileContext
      "# secure paths\n  password \n\n\t# none below\ndb.token".toList .LevelNone
      (by decide) (by decide) (by decide) (by decide)).1.trans (by decide)⟩

/-! ### C8 -/

/-- C8, as stated, fails when the input file is missing and the format is inferred:
opening the input fails and the command returns that error, but by then `log.Printf` has
written the line `Using format: json` to standard error. -/
theorem Action_prints_before_failing :
    Action.failsBeforeOutput exampleWorld missingContext
      "open missing.json: no such file or directory".toList ∧
    (Action exampleWorld missingContext).result
      = .error (.error "open missing.json: no such file or directory".toList) ∧
    Event.logPrintf "Using format: json".toList
      ∈ (Action exampleWorld missingContext).trace := by
  refine ⟨?_, by decide, by decide⟩
  exact Or.inr ⟨["password".toList], "json".toList, by decide, by decide, Or.inl (by decide)⟩

/-- C8, amended: if a step before output fails, the command returns that same error,
`ExportFile` is not called and the output stage is not reached, so the buffer is printed
neither by `fmt.Printf` nor by `fmt.Fprintf`.  Everything the command has done by then is
of these kinds: calls of `l.Debugf`; the line `Using format: ...` of `log.Printf`
(standard error), only when the format is inferred; the prompt `Passphrase: ` on standard
error, the call of `gopass.GetPasswdMasked` and its echo on standard output, only when
no passphrase comes with the flags; the calls of `secrets.New` and `Export`.  What
`l.Debugf`, `secrets.New` and `Export` write inside is not part of the statement. -/
theorem Action_fails_before_output (w : World) (ctx : Context) (e : Error)
    (h : Action.failsBeforeOutput w ctx e) :
    (Action w ctx).result = .error (.error e) ∧
    (Action w ctx).trace = (Action.prepare w ctx).trace ∧
    (∀ f p m, Event.exportFile f p m ∉ (Action w ctx).trace) ∧
    (∀ ev ∈ (Action w ctx).trace,
      (∃ l m, ev = .debugf l m) ∨
      (ctx.formatFlag = [] ∧ ∃ f, ev = .logPrintf ("Using format: ".toList ++ f)) ∨
      (ctx.passphraseFlag = [] ∧
        (ev = .stderr "Passphrase: ".toList ∨ ev = .getPasswdMasked ∨
          ev = .stdout w.GetPasswdMaskedEcho)) ∨
      (∃ o, ev = .secretsNew o) ∨
      (∃ f, ev = .export f)) ∧
    (∀ s, Event.stdout s ∈ (Action w ctx).trace →
      ctx.passphraseFlag = [] ∧ s = w.GetPasswdMaskedEcho) ∧
    (∀ s, Event.stderr s ∈ (Action w ctx).trace →
      ctx.passphraseFlag = [] ∧ s = "Passphrase: ".toList) := by
  have hp := Action.prepare_of_failsBeforeOutput h
  have hA := Action_of_prepare_error hp
  rw [hA]
  refine ⟨rfl, rfl, ?_, ?_, ?_, ?_⟩
  · intro f p m hm
    rcases Action.prepare_trace w ctx _ hm with
      ⟨_, _, h⟩ | ⟨_, _, _, h⟩ | ⟨_, h | h | h⟩ | ⟨_, h, _⟩ | ⟨_, h, _⟩ <;> cases h
  · intro ev hm
    rcases Action.prepare_trace w ctx _ hm with
      ⟨l, m, h⟩ | ⟨h0, f, _, h⟩ | h | ⟨o, h, _⟩ | ⟨f, h, _⟩
    · exact Or.inl ⟨l, m, h⟩
    · exact Or.inr (Or.inl ⟨h0, f, h⟩)
    · exact Or.inr (Or.inr (Or.inl h))
    · exact Or.inr (Or.inr (Or.inr (Or.inl ⟨o, h⟩)))
    · exact Or.inr (Or.inr (Or.inr (Or.inr ⟨f, h⟩)))
  · intro s hm
    rcases Action.prepare_trace w ctx _ hm with
      ⟨_, _, h⟩ | ⟨_, _, _, h⟩ | ⟨hpass, h | h | h⟩ | ⟨_, h, _⟩ | ⟨_, h, _⟩
    · cases h
    · cases h
    · cases h
    · cases h
    · cases h
      exact ⟨hpass, rfl⟩
    · cases h
    · cases h
  · intro s hm
    rcases Action.prepare_trace w ctx _ hm with
      ⟨_, _, h⟩ | ⟨_, _, _, h⟩ | ⟨hpass, h | h | h⟩ | ⟨_, h, _⟩ | ⟨_, h, _⟩
    · cases h
    · cases h
    · cases h
      exact ⟨hpass, rfl⟩
    · cases h
    · cases h
    · cases h
    · cases h

theorem Action_fails_before_output_witness :
    Action.failsBeforeOutput failingWorld promptContext "unable to locate secure path".toList ∧
    (Action failingWorld promptContext).trace
      = [.debugf .LevelNone "Loaded keys: [password]".toList,
         .logPrintf "Using format: json".toList,
         .stderr "Passphrase: ".toList,
         .getPasswdMasked,
         .stdout "*******\n".toList,
         .secretsNew
           { Format := "json".toList,
             Reader := "\x7b\"discount\":\"100%\",\"password\":\"s3cr3t\"\x7d".toList,
             Cipher := NewSymmetricCipher (bytes "testing".toList), LogLevel := .LevelNone,
             SecurePaths := ["password".toList] }] ∧
    ((Action failingWorld promptContext).result
      = .error (.error "unable to locate secure path".toList) ∧
    (Action failingWorld promptContext).trace = (Action.prepare failingWorld promptContext).trace ∧
    (∀ f p m, Event.exportFile f p m ∉ (Action failingWorld promptContext).trace) ∧
    (∀ ev ∈ (Action failingWorld promptContext).trace,
      (∃ l m, ev = .debugf l m) ∨
      (promptContext.formatFlag = [] ∧ ∃ f, ev = .logPrintf ("Using format: ".toList ++ f)) ∨
      (promptContext.passphraseFlag = [] ∧
        (ev = .stderr "Passphrase: ".toList ∨ ev = .getPasswdMasked ∨
          ev = .stdout failingWorld.GetPasswdMaskedEcho)) ∨
      (∃ o, ev = .secretsNew o) ∨
      (∃ f, ev = .export f)) ∧
    (∀ s, Event.stdout s ∈ (Action failingWorld promptContext).trace →
      promptContext.passphraseFlag = [] ∧ s = failingWorld.GetPasswdMaskedEcho) ∧
    (∀ s, Event.stderr s ∈ (Action failingWorld promptContext).trace →
      promptContext.passphraseFlag = [] ∧ s = "Passphrase: ".toList)) :=
  ⟨Or.inr ⟨["password".toList], "json".toList, by decide, by decide,
      Or.inr ⟨_, rfl, Or.inr ⟨NewSymmetricCipher (bytes "testing".toList), by decide,
        Or.inr ⟨.LevelNone, by decide, Or.inl rfl⟩⟩⟩⟩,
    by decide,
    Action_fails_before_output failingWorld promptContext "unable to locate secure path".toList
      (Or.inr ⟨["password".toList], "json".toList, by decide, by decide,
        Or.inr ⟨_, rfl, Or.inr ⟨NewSymmetricCipher (bytes "testing".toList), by decide,
          Or.inr ⟨.LevelNone, by decide, Or.inl rfl⟩⟩⟩⟩)⟩

/-! ### C9 -/

/-- C9 at a failing input: `Export` returns a JSON document with the value `100%`, the
output path is `/dev/stdout`, and what reaches standard output is not that buffer: the
`'%'` and the character after it come out as `%!"(MISSING)`.  No error is returned and
`ExportFile` is not called. -/
theorem Action_stdout_percent :
    exampleContext.outFlag = "/dev/stdout".toList ∧
    (Action.prepare exampleWorld exampleContext).result.map (fun r => r.2.2)
      = .ok "\x7b\"discount\":\"100%\",\"password\":\"c0ffee\"\x7d".toList ∧
    (Action exampleWorld exampleContext).result = .ok () ∧
    (Action exampleWorld exampleContext).trace.getLast?
      = some (.stdout "\x7b\"discount\":\"100%!\"(MISSING),\"password\":\"c0ffee\"\x7d".toList) ∧
    Event.stdout "\x7b\"discount\":\"100%\",\"password\":\"c0ffee\"\x7d".toList
      ∉ (Action exampleWorld exampleContext).trace ∧
    (Action exampleWorld exampleContext).trace.filter Event.isExportFile = [] := by
  decide

/-! ### C10 -/

/-- C10, as stated, fails when the output path differs from the input path: the mode
handed to `ExportFile` is `os.O_EXCL` alone, which carries no creation flag. -/
theorem Action_mode_without_create :
    outFileContext.outFlag
      ≠ outFileContext.inFlag ∧
    (Action exampleWorld outFileContext).trace.filter
        Event.isExportFile
      = [.exportFile "json".toList "out.json".toList O_EXCL] ∧
    O_EXCL &&& O_CREATE = 0 := by
  decide

/-- C10, amended: when every step before output succeeds and the output path is neither
pseudo-path, `ExportFile` is called exactly once, with the selected format and the output
path; the mode is `O_WRONLY|O_TRUNC` (no `O_EXCL`) exactly when the output path equals the
input path, and otherwise `O_EXCL` alone, with no truncation flag and no creation flag. -/
theorem Action_exportFile (w : World) (ctx : Context) (envFile : EnvFile)
    (format buff : GoString)
    (h : (Action.prepare w ctx).result = .ok (envFile, format, buff))
    (hstdout : ctx.outFlag ≠ "/dev/stdout".toList)
    (hstderr : ctx.outFlag ≠ "/dev/stderr".toList) :
    (Action.format ctx).result = .ok format ∧
    (∃ mode, (Action w ctx).trace.filter Event.isExportFile
        = [.exportFile format ctx.outFlag mode] ∧
      (ctx.outFlag = ctx.inFlag → mode = O_WRONLY ||| O_TRUNC) ∧
      (ctx.outFlag ≠ ctx.inFlag → mode = O_EXCL)) ∧
    ((O_WRONLY ||| O_TRUNC) &&& O_WRONLY = O_WRONLY ∧
      (O_WRONLY ||| O_TRUNC) &&& O_TRUNC = O_TRUNC ∧
      (O_WRONLY ||| O_TRUNC) &&& O_EXCL = 0 ∧
      O_WRONLY ||| O_TRUNC ≠ O_EXCL) ∧
    (O_EXCL &&& O_TRUNC = 0 ∧ O_EXCL &&& O_CREATE = 0) := by
  refine ⟨(Action.prepare_ok h).1, ?_, by decide, by decide⟩
  refine ⟨if ctx.outFlag = ctx.inFlag then O_WRONLY ||| O_TRUNC else O_EXCL, ?_,
    fun heq => if_pos heq, fun hne => if_neg hne⟩
  rw [Action_of_prepare_ok h, List.filter_append, Action.prepare_filter_isExportFile,
    Action.output_trace, if_neg hstdout, if_neg hstderr]
  rfl

theorem Action_exportFile_witness :
    (∃ envFile,
      (Action.prepare exampleWorld inPlaceContext).result
        = .ok (envFile, "json".toList, exampleBuffer)) ∧
    inPlaceContext.outFlag
      ≠ "/dev/stdout".toList ∧
    inPlaceContext.outFlag
      ≠ "/dev/stderr".toList ∧
    (Action exampleWorld inPlaceContext).trace.filter
        Event.isExportFile
      = [.exportFile "json".toList "in.json".toList (O_WRONLY ||| O_TRUNC)] :=
  ⟨⟨_, rfl⟩, by decide, by decide, by
    obtain ⟨_, ⟨mode, h1, h2, _⟩, _⟩ :=
      Action_exportFile exampleWorld inPlaceContext
        _ "json".toList exampleBuffer rfl (by decide) (by decide)
    rw [h1, h2 rfl]
    rfl⟩

end Secrets
